import Mathlib

/-!
Verification of the FinancialDetective extraction pipeline
(`financial_detective.py`).

The Python data flowing through the pipeline is JSON-shaped, so we model it
with an inductive `JValue` (numbers are modelled as integers; IEEE floats are
outside the model).  Python dicts are modelled as association lists in
insertion order, matching CPython's ordered dicts; `dict` key lookup is
`List.lookup`.  Strings are modelled either as `String` or as `List Char`
(Python strings are sequences of code points).
-/

namespace FinancialDetective

/-- Model of a parsed JSON value (numbers restricted to integers). -/
inductive JValue where
  | null : JValue
  | bool (b : Bool) : JValue
  | num (n : Int) : JValue
  | str (s : String) : JValue
  | arr (items : List JValue) : JValue
  | obj (members : List (String × JValue)) : JValue

/-- Membership test for a key in a Python dict (`k in d`). -/
def hasKey (k : String) (kvs : List (String × JValue)) : Bool :=
  (kvs.lookup k).isSome

/-- The membership test `entity["type"] not in ["Company", "RiskFactor", "Amount"]`
from `_validate_json_schema`: Python `in` compares with `==`, and a JSON value
equals one of those Python strings exactly when it is that string. -/
def typeAllowed (v : JValue) : Bool :=
  match v with
  | .str s => s == "Company" || s == "RiskFactor" || s == "Amount"
  | _ => false

/-- One iteration of the entity loop in `_validate_json_schema`:
the entity must be a dict holding `id`, `type` and `name`, and its `type`
must be one of the three enumerated kinds. -/
def validEntity (e : JValue) : Bool :=
  match e with
  | .obj kvs =>
      hasKey "id" kvs && hasKey "type" kvs && hasKey "name" kvs &&
      (match kvs.lookup "type" with
       | some t => typeAllowed t
       | none => false)
  | _ => false

/-- One iteration of the relationship loop in `_validate_json_schema`:
the relationship must be a dict holding `source`, `target` and `type`. -/
def validRelationship (r : JValue) : Bool :=
  match r with
  | .obj kvs => hasKey "source" kvs && hasKey "target" kvs && hasKey "type" kvs
  | _ => false

/-- Model of `FinancialDetective._validate_json_schema` (lines 218-245):
the candidate must be a dict holding both `entities` and `relationships`,
both values must be lists, and every element of each list must pass the
corresponding record check.  The Python function is a pure predicate: it
only reads its argument and returns a bool on every input. -/
def validateJsonSchema (d : JValue) : Bool :=
  match d with
  | .obj kvs =>
      match kvs.lookup "entities", kvs.lookup "relationships" with
      | some (.arr es), some (.arr rs) =>
          es.all validEntity && rs.all validRelationship
      | _, _ => false
  | _ => false

/-- Python `d[k] = v` on a dict where `k` is known to be absent appends the
binding at the end (insertion order); when `k` is present the write is not
executed by the repair code, so the list is returned unchanged. -/
def addMissingKey (k : String) (v : JValue) (kvs : List (String × JValue)) :
    List (String × JValue) :=
  if hasKey k kvs then kvs else kvs ++ [(k, v)]

/-- Model of the shallow-repair step of `extract_knowledge_graph`
(lines 280-287): when validation fails, default a missing `entities` key and
then a missing `relationships` key to empty lists.  On a non-dict value the
Python assignment `graph_data["entities"] = []` raises `TypeError`, modelled
as `none`. -/
def shallowRepair (g : JValue) : Option JValue :=
  if validateJsonSchema g then some g
  else
    match g with
    | .obj kvs =>
        some (.obj (addMissingKey "relationships" (.arr [])
          (addMissingKey "entities" (.arr []) kvs)))
    | _ => none

/-! ## Knowledge-graph records consumed by the renderers

Both renderers read only the string fields below from the validated graph
(plus the optional `value`, read through Python truthiness by the diagram
renderer); `metadata` is never read by either renderer and is omitted. -/

/-- Fields of an entity record read by the renderers (section 3 data model). -/
structure Entity where
  id : String
  type : String
  name : String
  value : Option String
deriving DecidableEq

/-- Fields of a relationship record read by the renderers. -/
structure Relationship where
  source : String
  target : String
  type : String
deriving DecidableEq

/-- A knowledge graph as handed to the renderers. -/
structure KnowledgeGraph where
  entities : List Entity
  relationships : List Relationship
deriving DecidableEq

/-- Identifier sanitization in `generate_mermaid_chart`:
`x.replace(" ", "_").replace("-", "_")` (single-character replacements, so a
character map). -/
def sanitizeId (s : String) : String :=
  ⟨s.data.map (fun c => if c = ' ' || c = '-' then '_' else c)⟩

/-- Style string chosen per entity kind in `generate_mermaid_chart`. -/
def mermaidStyle (t : String) : String :=
  if t = "Company" then "fill:#4A90E2,stroke:#333,stroke-width:2px"
  else if t = "RiskFactor" then "fill:#E24A4A,stroke:#333,stroke-width:2px"
  else if t = "Amount" then "fill:#4AE24A,stroke:#333,stroke-width:2px"
  else "fill:#E2E24A,stroke:#333,stroke-width:2px"

/-- Node-declaration line appended for an entity:
`    {entity_id}["{name}"]` with the id sanitized. -/
def mermaidNodeLine (e : Entity) : String :=
  "    " ++ sanitizeId e.id ++ "[\"" ++ e.name ++ "\"]"

/-- Style line appended for an entity: `    style {entity_id} {style}`. -/
def mermaidStyleLine (e : Entity) : String :=
  "    style " ++ sanitizeId e.id ++ " " ++ mermaidStyle e.type

/-- Edge line appended for a relationship:
`    {source} -->|{rel_type}| {target}` with both endpoints sanitized. -/
def mermaidEdgeLine (r : Relationship) : String :=
  "    " ++ sanitizeId r.source ++ " -" ++ "->|" ++ r.type ++ "| " ++ sanitizeId r.target

/-- The entity loop of `generate_mermaid_chart` appends a node line and a
style line for each entity in order. -/
def mermaidEntityLines : List Entity → List String
  | [] => []
  | e :: es => mermaidNodeLine e :: mermaidStyleLine e :: mermaidEntityLines es

/-- The list `mermaid_lines` built by `generate_mermaid_chart`
(lines 376-402): the `graph TD` header, then two lines per entity, then one
edge line per relationship — the relationship loop is unconditional. -/
def mermaidLines (g : KnowledgeGraph) : List String :=
  "graph TD" :: (mermaidEntityLines g.entities ++ g.relationships.map mermaidEdgeLine)

/-- The full text written by `generate_mermaid_chart` (lines 404-418): the
joined lines wrapped in a fenced `mermaid` block with count summaries. -/
def mermaidContent (g : KnowledgeGraph) : String :=
  "# Financial Knowledge Graph (Mermaid)\n\n```mermaid\n" ++
    String.intercalate "\n" (mermaidLines g) ++
    "\n```\n\n## Entities\n" ++ toString g.entities.length ++
    " entities extracted\n\n## Relationships\n" ++
    toString g.relationships.length ++ " relationships extracted\n"

/-! ## Diagram renderer (`visualize_graph`) -/

/-- The node ids added to the NetworkX graph, and the key set of `entity_map`
(both are keyed by `entity["id"]`). -/
def entityIds (g : KnowledgeGraph) : List String :=
  g.entities.map Entity.id

/-- Node label in `visualize_graph`: the name, plus the value on a second
line when `entity.get("value")` is truthy (`None` and `""` are falsy). -/
def visNodeLabel (e : Entity) : String :=
  match e.value with
  | some v => if v = "" then e.name else e.name ++ "\n(" ++ v ++ ")"
  | none => e.name

/-- The edge loop of `visualize_graph` (lines 319-325): an edge is added only
when both `rel["source"]` and `rel["target"]` are keys of `entity_map`. -/
def visEdges (g : KnowledgeGraph) : List Relationship :=
  g.relationships.filter
    (fun r => (entityIds g).contains r.source && (entityIds g).contains r.target)

/-! ## Response normalizer (the clean-up step of `_call_llm`, lines 199-207)

Python strings are modelled as `List Char` here so the slicing operations
are explicit.  `str.strip()` (no argument) removes leading and trailing
whitespace; we model the ASCII whitespace characters Python strips. -/

/-- Whitespace characters removed by `str.strip()` (ASCII portion). -/
def isStripChar (c : Char) : Bool :=
  c = ' ' || c = '\t' || c = '\n' || c = '\x0d' || c = '\x0b' || c = '\x0c'

/-- Model of `content.strip()`: drop stripped characters from the front,
then from the back. -/
def pyStrip (s : List Char) : List Char :=
  (s.dropWhile isStripChar).rdropWhile isStripChar

/-- The characters of the fence marker `"```"`. -/
def fenceChars : List Char := ['\x60', '\x60', '\x60']

/-- The characters of the opening marker `"```json"`. -/
def fenceJsonChars : List Char := ['\x60', '\x60', '\x60', 'j', 's', 'o', 'n']

/-- Model of the clean-up block of `_call_llm`: strip, drop a leading
```` ```json ```` (7 characters), drop a leading ```` ``` ```` (3 characters),
drop a trailing ```` ``` ```` (3 characters), strip again.  The two prefix
tests run in sequence exactly as in the source. -/
def normalizeResponseChars (s : List Char) : List Char :=
  let c1 := pyStrip s
  let c2 := if fenceJsonChars.isPrefixOf c1 then c1.drop 7 else c1
  let c3 := if fenceChars.isPrefixOf c2 then c2.drop 3 else c2
  let c4 := if fenceChars.isSuffixOf c3 then c3.take (c3.length - 3) else c3
  pyStrip c4

/-- String-level wrapper of the clean-up step. -/
def normalizeResponse (s : String) : String :=
  ⟨normalizeResponseChars s.data⟩

/-! ## Completion client retry loop (`_call_llm`, lines 179-216) -/

/-- Outcome of one `requests.post` call as seen by the retry loop.  A raised
`requests` exception, and any exception raised while decoding the response
body, are both handled by the same `except` clause, so both are modelled by
`exn`; otherwise the response carries its status code, its error text and
the message content. -/
inductive AttemptOutcome where
  | exn (msg : String)
  | resp (status : Nat) (text : String) (content : String)

/-- Result of `_call_llm` as observed by the caller. -/
inductive CallResult where
  | ok (content : String)
  | raised (msg : String)
  | noneReturned

/-- Observable trace of one `_call_llm` run: how many requests were made,
the sleep durations in seconds in order, and the final outcome. -/
structure CallTrace where
  attempts : Nat
  sleeps : List Nat
  result : CallResult

/-- Prepend one request and an optional sleep to a trace. -/
def CallTrace.step (sleep : Option Nat) (t : CallTrace) : CallTrace :=
  ⟨t.attempts + 1, match sleep with | some w => w :: t.sleeps | none => t.sleeps, t.result⟩

/-- The body of `for attempt in range(self.max_retries)`, with `remaining`
iterations left.  Status 429 sleeps `(2 ** attempt) * 2` seconds and
retries; any other non-200 status sleeps `2 ** attempt` and retries, except
on the final attempt where the error is raised; an exception follows the
same schedule; a 200 response returns the normalized content.  When the
iterations run out the Python function falls off the end of the loop and
returns `None`. -/
def callAttempts (responses : Nat → AttemptOutcome) (maxRetries : Nat) :
    Nat → Nat → CallTrace
  | _, 0 => ⟨0, [], .noneReturned⟩
  | attempt, remaining + 1 =>
    match responses attempt with
    | .exn msg =>
        if attempt < maxRetries - 1 then
          CallTrace.step (some (2 ^ attempt))
            (callAttempts responses maxRetries (attempt + 1) remaining)
        else ⟨1, [], .raised msg⟩
    | .resp status text content =>
        if status = 429 then
          CallTrace.step (some (2 ^ attempt * 2))
            (callAttempts responses maxRetries (attempt + 1) remaining)
        else if status ≠ 200 then
          if attempt < maxRetries - 1 then
            CallTrace.step (some (2 ^ attempt))
              (callAttempts responses maxRetries (attempt + 1) remaining)
          else ⟨1, [], .raised ("API error " ++ toString status ++ ": " ++ text)⟩
        else ⟨1, [], .ok (normalizeResponse content)⟩

/-- Model of `_call_llm` with `self.max_retries = 3`: run the loop from
attempt 0 with 3 iterations available. -/
def callLLM (responses : Nat → AttemptOutcome) : CallTrace :=
  callAttempts responses 3 0 3

/-! ## Prompt builder (`_build_extraction_prompt`, lines 89-156)

The method returns one f-string whose only interpolation is `{text}`, so it
is the concatenation of a fixed header, the document text, and a fixed
footer.  Literal braces of the JSON example (written `{{`/`}}` in the
f-string) are transcribed with `\x7b`/`\x7d` escapes. -/

/-- Text of the extraction prompt before the `{text}` interpolation point. -/
def promptHeader : String :=
  "You are a financial data extraction expert. Extract entities and relationships from the following text from a Reliance Annual Report.

EXTRACTION REQUIREMENTS:
1. ENTITIES to extract:
   - Company Names: All company names mentioned (e.g., \"Reliance Retail\", \"Jio\", \"Hamleys\")
   - Risk Factors: Any risk factors mentioned (e.g., \"Market volatility\", \"Regulatory changes\")
   - Dollar Amounts: Financial figures in USD, INR, or other currencies (e.g., \"$1.5 billion\", \"‚Çπ50,000 crores\")

2. RELATIONSHIPS to extract:
   - Ownership: \"Company A OWNS Company B\" (e.g., \"Reliance Retail OWNS Hamleys\")
   - Financial: \"Company HAS Amount\" (e.g., \"Reliance Retail HAS $2.5 billion revenue\")
   - Risk: \"Company FACES RiskFactor\" (e.g., \"Reliance FACES Market volatility\")
   - Partnership: \"Company PARTNERS_WITH Company\" (e.g., \"Jio PARTNERS_WITH Google\")

OUTPUT FORMAT (strict JSON):
\x7b
  \"entities\": [
    \x7b
      \"id\": \"unique_id_1\",
      \"type\": \"Company\",
      \"name\": \"Reliance Retail\",
      \"value\": null,
      \"metadata\": \x7b\x7d
    \x7d,
    \x7b
      \"id\": \"unique_id_2\",
      \"type\": \"Amount\",
      \"name\": \"Revenue 2023\",
      \"value\": \"$2.5 billion\",
      \"metadata\": \x7b\"currency\": \"USD\", \"year\": 2023\x7d
    \x7d,
    \x7b
      \"id\": \"unique_id_3\",
      \"type\": \"RiskFactor\",
      \"name\": \"Market volatility\",
      \"value\": null,
      \"metadata\": \x7b\x7d
    \x7d
  ],
  \"relationships\": [
    \x7b
      \"source\": \"unique_id_1\",
      \"target\": \"unique_id_4\",
      \"type\": \"OWNS\",
      \"metadata\": \x7b\"year\": 2023\x7d
    \x7d,
    \x7b
      \"source\": \"unique_id_1\",
      \"target\": \"unique_id_2\",
      \"type\": \"HAS\",
      \"metadata\": \x7b\x7d
    \x7d
  ]
\x7d

RULES:
- Use unique IDs for each entity (e.g., \"company_reliance_retail\", \"amount_revenue_2023\")
- Extract ALL company names, risk factors, and dollar amounts mentioned
- Extract ALL relationships between entities
- Ensure JSON is valid and properly formatted
- Do not use regex - use your understanding of the text

TEXT TO ANALYZE:
"

/-- Text of the extraction prompt after the `{text}` interpolation point. -/
def promptFooter : String :=
  "

Return ONLY the JSON object, no additional text or explanation."

/-- Model of `_build_extraction_prompt`: render the f-string, splicing the
document text between the fixed header and footer. -/
def buildExtractionPrompt (text : String) : String :=
  promptHeader ++ text ++ promptFooter

/-! ## Constructor (`FinancialDetective.__init__`, lines 56-87) -/

/-- Configuration state set by a successful construction. -/
structure FDConfig where
  apiProvider : String
  apiKey : String
  apiUrl : String
  model : String
  maxRetries : Nat
deriving DecidableEq

/-- Python truthiness of the optional `api_key` value: `None` and the empty
string are falsy, every other string is truthy. -/
def pyTruthy (v : Option String) : Bool :=
  match v with
  | some s => !(s == "")
  | none => false

/-- Model of `__init__`: lowercase the provider; take the explicit key when
truthy, otherwise read the provider's environment variable, raising
`ValueError` for an unknown provider; raise when the resulting key is falsy;
then select endpoint and model, with every provider other than `groq`
falling into the `else:  # openai` branch.  Raised `ValueError`s are
modelled as `Except.error` with the formatted message. -/
def initFinancialDetective (apiProvider : String) (apiKey : Option String)
    (env : String → Option String) : Except String FDConfig :=
  let p := apiProvider.toLower
  let keyStep : Except String (Option String) :=
    if pyTruthy apiKey then .ok apiKey
    else if p = "groq" then .ok (env "GROQ_API_KEY")
    else if p = "openai" then .ok (env "OPENAI_API_KEY")
    else .error ("Unknown API provider: " ++ apiProvider)
  match keyStep with
  | .error e => .error e
  | .ok key =>
    if pyTruthy key then
      if p = "groq" then
        .ok ⟨p, key.getD "", "https://api.groq.com/openai/v1/chat/completions",
          "llama-3.3-70b-versatile", 3⟩
      else
        .ok ⟨p, key.getD "", "https://api.openai.com/v1/chat/completions",
          "gpt-4o", 3⟩
    else .error (p.toUpper ++ "_API_KEY not found in environment")

/-! ## Substring search helper -/

/-- Boolean substring test on character lists: the needle occurs as a
contiguous run somewhere in the haystack. -/
def listHasSub (needle : List Char) : List Char → Bool
  | [] => needle.isEmpty
  | c :: rest => needle.isPrefixOf (c :: rest) || listHasSub needle rest

/-! ## Validator specification (claim C2) -/

/-- Specification-side reading of a well-formed entity record: a keyed
record containing `id`, `name`, and a `type` equal to one of the three
enumerated kinds. -/
def EntitySpec (e : JValue) : Prop :=
  ∃ kvs, e = .obj kvs ∧ (kvs.lookup "id").isSome ∧ (kvs.lookup "name").isSome ∧
    (kvs.lookup "type" = some (.str "Company") ∨
     kvs.lookup "type" = some (.str "RiskFactor") ∨
     kvs.lookup "type" = some (.str "Amount"))

/-- Specification-side reading of a well-formed relationship record: a keyed
record containing `source`, `target` and `type`. -/
def RelationshipSpec (r : JValue) : Prop :=
  ∃ kvs, r = .obj kvs ∧ (kvs.lookup "source").isSome ∧
    (kvs.lookup "target").isSome ∧ (kvs.lookup "type").isSome

/-- Specification-side reading of a well-formed graph: a keyed record whose
`entities` and `relationships` are both sequences, with every element
well-formed. -/
def GraphSpec (d : JValue) : Prop :=
  ∃ kvs es rs, d = .obj kvs ∧ kvs.lookup "entities" = some (.arr es) ∧
    kvs.lookup "relationships" = some (.arr rs) ∧
    (∀ e ∈ es, EntitySpec e) ∧ (∀ r ∈ rs, RelationshipSpec r)

/-! ## Persisted graph text (claim C8)

`save_graph_json` writes `json.dump(graph_data, f, indent=2,
ensure_ascii=False)`; reading the file back is `json.loads`.  Both are
modelled here from the documented semantics of Python's `json` module
(an external library, not part of this repository): two-space pretty
printing, `": "` and `",\n"` separators, short escapes plus `\u00XX` for
control characters, all other characters written literally
(`ensure_ascii=False`).  Numbers are integers in this model (IEEE floats
are out of scope), and the parser reads standard JSON with whitespace
tolerance, modulo the same integer restriction. -/

/-- The character of a decimal digit. -/
def digitChar (n : Nat) : Char := Char.ofNat (48 + n)

/-- The character of a lowercase hexadecimal digit. -/
def hexDigitChar (n : Nat) : Char :=
  Char.ofNat (if n < 10 then 48 + n else 87 + n)

/-- Decimal digits of a natural number, most significant first; the fuel
argument only serves termination and any value above the digit count gives
the same result. -/
def natCharsAux : Nat → Nat → List Char
  | 0, _ => []
  | fuel + 1, n =>
      if n < 10 then [digitChar n]
      else natCharsAux fuel (n / 10) ++ [digitChar (n % 10)]

/-- Decimal representation of a natural number. -/
def natChars (n : Nat) : List Char := natCharsAux (n + 1) n

/-- Decimal representation of an integer, as Python prints it. -/
def intChars (n : Int) : List Char :=
  if n < 0 then '-' :: natChars n.natAbs else natChars n.natAbs

/-- JSON escape of one character with `ensure_ascii=False`: the two
mandatory escapes, the short control escapes, `\u00XX` for the remaining
control characters, and everything else literal. -/
def escChar (c : Char) : List Char :=
  if c = '"' then ['\\', '"']
  else if c = '\\' then ['\\', '\\']
  else if c = '\n' then ['\\', 'n']
  else if c = '\t' then ['\\', 't']
  else if c = '\x0d' then ['\\', 'r']
  else if c = '\x08' then ['\\', 'b']
  else if c = '\x0c' then ['\\', 'f']
  else if c.toNat < 32 then
    ['\\', 'u', '0', '0', hexDigitChar (c.toNat / 16), hexDigitChar (c.toNat % 16)]
  else [c]

/-- JSON escape of a whole string body. -/
def escapeChars : List Char → List Char
  | [] => []
  | c :: cs => escChar c ++ escapeChars cs

/-- Indentation prefix at nesting depth `k` with `indent=2`. -/
def indentChars (k : Nat) : List Char := List.replicate (2 * k) ' '

mutual

/-- Pretty-printed JSON text of a value at nesting depth `k`, following
`json.dump(..., indent=2, ensure_ascii=False)`. -/
def renderJson : JValue → Nat → List Char
  | .null, _ => ['n', 'u', 'l', 'l']
  | .bool true, _ => ['t', 'r', 'u', 'e']
  | .bool false, _ => ['f', 'a', 'l', 's', 'e']
  | .num n, _ => intChars n
  | .str s, _ => '"' :: (escapeChars s.data ++ ['"'])
  | .arr [], _ => ['[', ']']
  | .arr (v :: vs), k =>
      '[' :: '\n' ::
        (renderItems (v :: vs) (k + 1) ++ '\n' :: (indentChars k ++ [']']))
  | .obj [], _ => ['\x7b', '\x7d']
  | .obj (m :: ms), k =>
      '\x7b' :: '\n' ::
        (renderMembers (m :: ms) (k + 1) ++ '\n' :: (indentChars k ++ ['\x7d']))

/-- Array elements, one per line at depth `k`, separated by `",\n"`. -/
def renderItems : List JValue → Nat → List Char
  | [], _ => []
  | [v], k => indentChars k ++ renderJson v k
  | v :: v' :: vs, k =>
      indentChars k ++ renderJson v k ++
        ',' :: '\n' :: renderItems (v' :: vs) k

/-- Object members, one per line at depth `k`, written `"key": value` and
separated by `",\n"`. -/
def renderMembers : List (String × JValue) → Nat → List Char
  | [], _ => []
  | [(key, v)], k =>
      indentChars k ++ '"' ::
        (escapeChars key.data ++ '"' :: ':' :: ' ' :: renderJson v k)
  | (key, v) :: m' :: ms, k =>
      (indentChars k ++ '"' ::
        (escapeChars key.data ++ '"' :: ':' :: ' ' :: renderJson v k)) ++
        ',' :: '\n' :: renderMembers (m' :: ms) k

end

/-- The text `save_graph_json` persists for a graph value. -/
def pyJsonDump (v : JValue) : String := ⟨renderJson v 0⟩

/-- JSON whitespace accepted between tokens. -/
def isJsonWs (c : Char) : Bool :=
  c = ' ' || c = '\t' || c = '\n' || c = '\x0d'

/-- Skip insignificant whitespace. -/
def skipWs (s : List Char) : List Char := s.dropWhile isJsonWs

/-- Decimal digit test. -/
def isDigitChar (c : Char) : Bool := 48 ≤ c.toNat && c.toNat ≤ 57

/-- Value of a decimal digit character. -/
def digitVal (c : Char) : Nat := c.toNat - 48

/-- Value of a hexadecimal digit character, either case. -/
def hexVal (c : Char) : Option Nat :=
  if 48 ≤ c.toNat && c.toNat ≤ 57 then some (c.toNat - 48)
  else if 97 ≤ c.toNat && c.toNat ≤ 102 then some (c.toNat - 87)
  else if 65 ≤ c.toNat && c.toNat ≤ 70 then some (c.toNat - 55)
  else none

/-- Decoding of a single-character JSON escape. -/
def unescapeChar (c : Char) : Option Char :=
  if c = '"' then some '"'
  else if c = '\\' then some '\\'
  else if c = '/' then some '/'
  else if c = 'n' then some '\n'
  else if c = 't' then some '\t'
  else if c = 'r' then some '\x0d'
  else if c = 'b' then some '\x08'
  else if c = 'f' then some '\x0c'
  else none

/-- Parse the body of a JSON string after the opening quote, returning the
decoded characters and the input after the closing quote.  Raw control
characters are rejected, as in strict `json.loads`. -/
def parseStringBody : List Char → Option (List Char × List Char)
  | [] => none
  | '"' :: rest => some ([], rest)
  | '\\' :: 'u' :: h1 :: h2 :: h3 :: h4 :: rest =>
      (match hexVal h1, hexVal h2, hexVal h3, hexVal h4 with
       | some a, some b, some c, some d =>
           (parseStringBody rest).map
             (fun p => (Char.ofNat (((a * 16 + b) * 16 + c) * 16 + d) :: p.1, p.2))
       | _, _, _, _ => none)
  | '\\' :: e :: rest =>
      (match unescapeChar e with
       | some c => (parseStringBody rest).map (fun p => (c :: p.1, p.2))
       | none => none)
  | c :: rest =>
      if c.toNat < 32 then none
      else (parseStringBody rest).map (fun p => (c :: p.1, p.2))

/-- Numeric value of a digit run, most significant first. -/
def digitsToNat (ds : List Char) : Nat :=
  ds.foldl (fun a c => a * 10 + digitVal c) 0

/-- Parse a nonempty digit run. -/
def parseNatNumber (s : List Char) : Option (Nat × List Char) :=
  if (s.takeWhile isDigitChar).isEmpty then none
  else some (digitsToNat (s.takeWhile isDigitChar), s.dropWhile isDigitChar)

/-- Parse an integer literal with optional leading minus. -/
def parseNumber (s : List Char) : Option (Int × List Char) :=
  match s with
  | '-' :: rest => (parseNatNumber rest).map (fun p => (-(p.1 : Int), p.2))
  | t => (parseNatNumber t).map (fun p => ((p.1 : Int), p.2))

mutual

/-- Parse one JSON value after optional whitespace.  The fuel bounds the
nesting depth; any fuel at least the value's size succeeds. -/
def parseValue : Nat → List Char → Option (JValue × List Char)
  | 0, _ => none
  | fuel + 1, input =>
    match skipWs input with
    | 'n' :: 'u' :: 'l' :: 'l' :: rest => some (.null, rest)
    | 't' :: 'r' :: 'u' :: 'e' :: rest => some (.bool true, rest)
    | 'f' :: 'a' :: 'l' :: 's' :: 'e' :: rest => some (.bool false, rest)
    | '"' :: rest => (parseStringBody rest).map (fun p => (.str ⟨p.1⟩, p.2))
    | '[' :: rest =>
        (match skipWs rest with
         | ']' :: rest' => some (.arr [], rest')
         | _ => (parseElems fuel rest).map (fun p => (.arr p.1, p.2)))
    | '\x7b' :: rest =>
        (match skipWs rest with
         | '\x7d' :: rest' => some (.obj [], rest')
         | _ => (parseFields fuel rest).map (fun p => (.obj p.1, p.2)))
    | t => (parseNumber t).map (fun p => (.num p.1, p.2))

/-- Parse one or more comma-separated array elements and the closing
bracket. -/
def parseElems : Nat → List Char → Option (List JValue × List Char)
  | 0, _ => none
  | fuel + 1, input =>
    match parseValue fuel input with
    | none => none
    | some (v, rest) =>
      match skipWs rest with
      | ',' :: rest' => (parseElems fuel rest').map (fun p => (v :: p.1, p.2))
      | ']' :: rest' => some ([v], rest')
      | _ => none

/-- Parse one or more comma-separated object members and the closing
brace. -/
def parseFields : Nat → List Char → Option (List (String × JValue) × List Char)
  | 0, _ => none
  | fuel + 1, input =>
    match skipWs input with
    | '"' :: rest =>
      (match parseStringBody rest with
       | none => none
       | some (key, rest1) =>
         match skipWs rest1 with
         | ':' :: rest2 =>
           (match parseValue fuel rest2 with
            | none => none
            | some (v, rest3) =>
              match skipWs rest3 with
              | ',' :: rest4 =>
                  (parseFields fuel rest4).map
                    (fun p => ((⟨key⟩, v) :: p.1, p.2))
              | '\x7d' :: rest4 => some ([(⟨key⟩, v)], rest4)
              | _ => none)
         | _ => none)
    | _ => none

end

/-- Model of `json.loads` on the persisted text: parse one value with ample
fuel and insist that only whitespace remains. -/
def pyJsonLoads (s : String) : Option JValue :=
  match parseValue (s.length + 1) s.data with
  | some (v, rest) => if (skipWs rest).isEmpty then some v else none
  | none => none

mutual

/-- Size measure of a JSON value, dominating the parser fuel it needs. -/
def jsize : JValue → Nat
  | .null => 1
  | .bool _ => 1
  | .num _ => 1
  | .str _ => 1
  | .arr vs => 1 + jsizeElems vs
  | .obj ms => 1 + jsizeFields ms

/-- Size measure of an element list. -/
def jsizeElems : List JValue → Nat
  | [] => 1
  | v :: vs => 1 + jsize v + jsizeElems vs

/-- Size measure of a member list. -/
def jsizeFields : List (String × JValue) → Nat
  | [] => 1
  | (_, v) :: ms => 1 + jsize v + jsizeFields ms

end

/-- A tail that cannot extend a number literal: empty or not starting with
a digit. -/
def GoodTail (rest : List Char) : Prop :=
  ∀ c, rest.head? = some c → isDigitChar c = false

/-! ## Theorems -/

/-- Two lines are appended to `mermaid_lines` per entity. -/
theorem mermaidEntityLines_length (es : List Entity) :
    (mermaidEntityLines es).length = 2 * es.length := by
  induction es with
  | nil => rfl
  | cons e es ih => simp [mermaidEntityLines, ih]; omega

/-- Both lines of an entity occur among the entity lines. -/
theorem mem_mermaidEntityLines {e : Entity} {es : List Entity} (h : e ∈ es) :
    mermaidNodeLine e ∈ mermaidEntityLines es ∧
      mermaidStyleLine e ∈ mermaidEntityLines es := by
  induction es with
  | nil => cases h
  | cons a es ih =>
    rcases List.mem_cons.mp h with rfl | h'
    · exact ⟨List.mem_cons_self _ _, List.mem_cons_of_mem _ (List.mem_cons_self _ _)⟩
    · have := ih h'
      exact ⟨List.mem_cons_of_mem _ (List.mem_cons_of_mem _ this.1),
        List.mem_cons_of_mem _ (List.mem_cons_of_mem _ this.2)⟩

/-- Claim C1.  For a completion client whose every request receives HTTP 429,
`_call_llm` makes exactly 3 attempts and sleeps 2, 4 and 8 seconds — but it
then falls off the end of the retry loop and implicitly returns `None`
instead of raising a transport error to the caller: the claimed
`TransportError` never happens.  The loop's other failure branches do raise
after the final attempt, so the silent `None` is a slip in the code. -/
theorem c1_rate_limited_returns_none :
    callLLM (fun _ => .resp 429 "Too Many Requests" "") =
      ⟨3, [2, 4, 8], .noneReturned⟩ := rfl

/-- Claim C7.  The prompt builder is pure and deterministic, and the built
prompt contains the document text verbatim as a substring. -/
theorem c7_prompt_deterministic_and_verbatim (d : String) :
    buildExtractionPrompt d = buildExtractionPrompt d ∧
      ∃ a b, buildExtractionPrompt d = a ++ d ++ b :=
  ⟨rfl, promptHeader, promptFooter, rfl⟩

/-- Claim C9.  With an explicit non-empty `api_key` the constructor never
raises, whatever the provider string: the key is taken as-is and any
provider other than `groq` (after lowercasing) silently receives the OpenAI
endpoint and model. -/
theorem c9_explicit_key_never_raises (provider key : String)
    (env : String → Option String) (h : key ≠ "") :
    ∃ cfg, initFinancialDetective provider (some key) env = .ok cfg ∧
      cfg.apiKey = key ∧
      (provider.toLower = "groq" →
        cfg.apiUrl = "https://api.groq.com/openai/v1/chat/completions" ∧
        cfg.model = "llama-3.3-70b-versatile") ∧
      (provider.toLower ≠ "groq" →
        cfg.apiUrl = "https://api.openai.com/v1/chat/completions" ∧
        cfg.model = "gpt-4o") := by
  have hkey : pyTruthy (some key) = true := by
    simp [pyTruthy, h]
  by_cases hp : provider.toLower = "groq"
  · have heq : initFinancialDetective provider (some key) env =
        .ok ⟨provider.toLower, key,
          "https://api.groq.com/openai/v1/chat/completions",
          "llama-3.3-70b-versatile", 3⟩ := by
      simp [initFinancialDetective, hkey, hp]
    exact ⟨_, heq, rfl, fun _ => ⟨rfl, rfl⟩, fun hc => absurd hp hc⟩
  · have heq : initFinancialDetective provider (some key) env =
        .ok ⟨provider.toLower, key,
          "https://api.openai.com/v1/chat/completions", "gpt-4o", 3⟩ := by
      simp [initFinancialDetective, hkey, hp]
    exact ⟨_, heq, rfl, fun hc => absurd hc hp, fun _ => ⟨rfl, rfl⟩⟩

/-- Witness for C9 at a provider that is neither `groq` nor `openai`. -/
theorem c9_witness :
    ("sk-test" ≠ "") ∧
    (∃ cfg, initFinancialDetective "anthropic" (some "sk-test") (fun _ => none) =
        .ok cfg ∧
      cfg.apiKey = "sk-test" ∧
      ("anthropic".toLower = "groq" →
        cfg.apiUrl = "https://api.groq.com/openai/v1/chat/completions" ∧
        cfg.model = "llama-3.3-70b-versatile") ∧
      ("anthropic".toLower ≠ "groq" →
        cfg.apiUrl = "https://api.openai.com/v1/chat/completions" ∧
        cfg.model = "gpt-4o")) :=
  ⟨by decide,
    c9_explicit_key_never_raises "anthropic" "sk-test" (fun _ => none) (by decide)⟩

/-- Claim C10.  The flow-chart renderer emits its edge line for every
relationship, with no check that the endpoints name existing entities, and
the produced line list has exactly the header plus two lines per entity plus
one line per relationship. -/
theorem c10_mermaid_edges_unconditional (g : KnowledgeGraph) (r : Relationship)
    (h : r ∈ g.relationships) :
    ("    " ++ sanitizeId r.source ++ " -" ++ "->|" ++ r.type ++ "| " ++
        sanitizeId r.target) ∈ mermaidLines g ∧
      (mermaidLines g).length =
        1 + (2 * g.entities.length + g.relationships.length) := by
  constructor
  · have : mermaidEdgeLine r ∈ g.relationships.map mermaidEdgeLine :=
      List.mem_map_of_mem _ h
    exact List.mem_cons_of_mem _ (List.mem_append_right _ this)
  · simp [mermaidLines, mermaidEntityLines_length]
    omega

/-- Witness for C10: a relationship whose endpoints match no entity still
produces an edge line. -/
theorem c10_witness :
    (Relationship.mk "ghost-x" "nobody" "OWNS" ∈
      (KnowledgeGraph.mk [Entity.mk "a" "Company" "A" none]
        [Relationship.mk "ghost-x" "nobody" "OWNS"]).relationships) ∧
    (("    " ++ sanitizeId "ghost-x" ++ " -" ++ "->|" ++ "OWNS" ++ "| " ++
        sanitizeId "nobody") ∈
      mermaidLines (KnowledgeGraph.mk [Entity.mk "a" "Company" "A" none]
        [Relationship.mk "ghost-x" "nobody" "OWNS"]) ∧
      (mermaidLines (KnowledgeGraph.mk [Entity.mk "a" "Company" "A" none]
        [Relationship.mk "ghost-x" "nobody" "OWNS"])).length = 1 + (2 * 1 + 1)) :=
  ⟨List.mem_cons_self _ _,
    c10_mermaid_edges_unconditional
      (KnowledgeGraph.mk [Entity.mk "a" "Company" "A" none]
        [Relationship.mk "ghost-x" "nobody" "OWNS"])
      (Relationship.mk "ghost-x" "nobody" "OWNS")
      (List.mem_cons_self _ _)⟩

/-- Claim C6.  The diagram renderer drops every relationship with a dangling
endpoint: no drawn edge refers to a missing entity id, and a dangling
relationship is never among the drawn edges.  The edge filter is a total
function of the graph, so dangling references cannot make it fail. -/
theorem c6_dangling_edges_skipped (g : KnowledgeGraph) (r : Relationship)
    (hr : r ∈ g.relationships)
    (hd : r.source ∉ entityIds g ∨ r.target ∉ entityIds g) :
    r ∉ visEdges g ∧
      ∀ e ∈ visEdges g, e.source ∈ entityIds g ∧ e.target ∈ entityIds g := by
  constructor
  · intro hmem
    have hp := (List.mem_filter.mp hmem).2
    rw [Bool.and_eq_true, List.elem_iff, List.elem_iff] at hp
    rcases hd with hd | hd <;> exact hd (by tauto)
  · intro e he
    have hp := (List.mem_filter.mp he).2
    rw [Bool.and_eq_true, List.elem_iff, List.elem_iff] at hp
    exact hp

/-- Witness for C6: a concrete dangling relationship is filtered out. -/
theorem c6_witness :
    (Relationship.mk "a" "ghost" "OWNS" ∈
      (KnowledgeGraph.mk [Entity.mk "a" "Company" "A" none]
        [Relationship.mk "a" "ghost" "OWNS"]).relationships) ∧
    ("ghost" ∉ entityIds (KnowledgeGraph.mk [Entity.mk "a" "Company" "A" none]
        [Relationship.mk "a" "ghost" "OWNS"])) ∧
    (Relationship.mk "a" "ghost" "OWNS" ∉
      visEdges (KnowledgeGraph.mk [Entity.mk "a" "Company" "A" none]
        [Relationship.mk "a" "ghost" "OWNS"])) := by
  refine ⟨List.mem_cons_self _ _, by decide, ?_⟩
  exact (c6_dangling_edges_skipped _ _ (List.mem_cons_self _ _)
    (Or.inr (by decide))).1

/-- A successful association-list lookup locates a member of the list. -/
theorem lookup_mem {k : String} {v : JValue} {l : List (String × JValue)}
    (h : l.lookup k = some v) : (k, v) ∈ l := by
  induction l with
  | nil => simp [List.lookup] at h
  | cons p t ih =>
    rw [List.lookup] at h
    by_cases hk : k == p.1
    · simp [hk] at h
      simp at hk
      subst h
      rw [List.mem_cons]
      left
      exact Prod.ext hk rfl
    · simp [hk] at h
      exact List.mem_cons_of_mem _ (ih h)

/-- The entity check agrees with its specification reading. -/
theorem validEntity_iff (e : JValue) : validEntity e = true ↔ EntitySpec e := by
  cases e <;> simp [validEntity, EntitySpec, hasKey]
  rename_i kvs
  rcases ht : kvs.lookup "type" with _ | t
  · simp [ht]
  · have hmem : ∃ x, ("type", x) ∈ kvs := ⟨t, lookup_mem ht⟩
    cases t <;> simp [typeAllowed, ht] <;> tauto

/-- The relationship check agrees with its specification reading. -/
theorem validRelationship_iff (r : JValue) :
    validRelationship r = true ↔ RelationshipSpec r := by
  cases r <;> simp [validRelationship, RelationshipSpec, hasKey]
  tauto

/-- Claim C2.  On every input the validator totally computes a boolean (it
is a Lean function, with no exceptions and no mutation), and it returns
`true` exactly on keyed records carrying `entities` and `relationships`
sequences of well-formed entity and relationship records. -/
theorem c2_validator_iff (d : JValue) :
    validateJsonSchema d = true ↔ GraphSpec d := by
  cases d <;> simp [validateJsonSchema, GraphSpec]
  rename_i kvs
  rcases he : kvs.lookup "entities" with _ | ev <;>
    rcases hr : kvs.lookup "relationships" with _ | rv <;>
      simp [he, hr]
  cases ev <;> cases rv <;> simp
  rename_i es rs
  simp [List.all_eq_true, validEntity_iff, validRelationship_iff]

/-! ## Shallow repair (claim C4) -/

/-- Association-list lookup on a cons cell, in if-then-else form. -/
theorem lookup_cons (k a : String) (v : JValue) (t : List (String × JValue)) :
    ((a, v) :: t).lookup k = if k == a then some v else t.lookup k := by
  rw [List.lookup]
  split <;> rename_i h <;> simp [h]

/-- Lookup passes over a list without the key. -/
theorem lookup_append_of_none {k : String} {l1 l2 : List (String × JValue)}
    (h : l1.lookup k = none) : (l1 ++ l2).lookup k = l2.lookup k := by
  induction l1 with
  | nil => rfl
  | cons p t ih =>
    rcases p with ⟨a, w⟩
    rw [lookup_cons] at h
    rw [List.cons_append, lookup_cons]
    split at h
    · exact absurd h (by simp)
    · rename_i hk
      rw [if_neg hk]
      exact ih h

/-- Lookup stops at a hit in the first list. -/
theorem lookup_append_of_some {k : String} {v : JValue}
    {l1 l2 : List (String × JValue)} (h : l1.lookup k = some v) :
    (l1 ++ l2).lookup k = some v := by
  induction l1 with
  | nil => simp [List.lookup] at h
  | cons p t ih =>
    rcases p with ⟨a, w⟩
    rw [lookup_cons] at h
    rw [List.cons_append, lookup_cons]
    split at h
    · rename_i hk
      rw [if_pos hk]
      exact h
    · rename_i hk
      rw [if_neg hk]
      exact ih h

/-- After defaulting key `k`, looking `k` up yields the original value when
present and the default otherwise. -/
theorem lookup_addMissingKey_self (k : String) (v : JValue)
    (kvs : List (String × JValue)) :
    (addMissingKey k v kvs).lookup k = some ((kvs.lookup k).getD v) := by
  unfold addMissingKey hasKey
  rcases h : kvs.lookup k with _ | w
  · simp only [h, Option.isSome_none, Bool.false_eq_true, if_false, Option.getD_none]
    rw [lookup_append_of_none h, lookup_cons]
    simp
  · simp [h]

/-- Defaulting key `k` leaves every other key's lookup unchanged. -/
theorem lookup_addMissingKey_other {q k : String} (v : JValue)
    (kvs : List (String × JValue)) (hq : q ≠ k) :
    (addMissingKey k v kvs).lookup q = kvs.lookup q := by
  unfold addMissingKey hasKey
  rcases h : kvs.lookup k with _ | w
  · simp only [h, Option.isSome_none, Bool.false_eq_true, if_false]
    rcases hq' : kvs.lookup q with _ | w'
    · rw [lookup_append_of_none hq', lookup_cons]
      simp [hq]
    · rw [lookup_append_of_some hq']
  · simp [h]

/-- A graph the validator accepts binds both top-level keys to sequences. -/
theorem validate_obj_lookups {kvs : List (String × JValue)}
    (hv : validateJsonSchema (.obj kvs) = true) :
    ∃ es rs, kvs.lookup "entities" = some (.arr es) ∧
      kvs.lookup "relationships" = some (.arr rs) := by
  rw [validateJsonSchema] at hv
  rcases he : kvs.lookup "entities" with _ | ev <;> rw [he] at hv
  · simp at hv
  · rcases hr : kvs.lookup "relationships" with _ | rv <;> rw [hr] at hv
    · cases ev <;> simp at hv
    · cases ev <;> cases rv <;>
        first
        | exact ⟨_, _, rfl, rfl⟩
        | simp at hv

/-- Claim C4.  The shallow repair of `extract_knowledge_graph` is a no-op on
every graph the validator accepts, and on any keyed record it only defaults
the two top-level keys: every other key keeps its binding, `entities` and
`relationships` come out bound to their original value when present and to
the empty sequence otherwise. -/
theorem c4_shallow_repair (g : JValue) (kvs : List (String × JValue))
    (k : String) (hk1 : k ≠ "entities") (hk2 : k ≠ "relationships") :
    (validateJsonSchema g = true → shallowRepair g = some g) ∧
    ∃ kvs', shallowRepair (.obj kvs) = some (.obj kvs') ∧
      kvs'.lookup k = kvs.lookup k ∧
      kvs'.lookup "entities" = some ((kvs.lookup "entities").getD (.arr [])) ∧
      kvs'.lookup "relationships" =
        some ((kvs.lookup "relationships").getD (.arr [])) := by
  constructor
  · intro hv
    simp [shallowRepair, hv]
  · by_cases hv : validateJsonSchema (.obj kvs) = true
    · obtain ⟨es, rs, he, hr⟩ := validate_obj_lookups hv
      exact ⟨kvs, by simp [shallowRepair, hv], rfl, by simp [he], by simp [hr]⟩
    · refine ⟨addMissingKey "relationships" (.arr [])
          (addMissingKey "entities" (.arr []) kvs),
        by simp [shallowRepair, hv], ?_, ?_, ?_⟩
      · rw [lookup_addMissingKey_other _ _ hk2, lookup_addMissingKey_other _ _ hk1]
      · rw [lookup_addMissingKey_other _ _ (by decide),
          lookup_addMissingKey_self]
      · rw [lookup_addMissingKey_self,
          lookup_addMissingKey_other _ _ (by decide)]

/-- Witness for C4 at a record missing both top-level keys. -/
theorem c4_witness :
    ("x" ≠ "entities") ∧ ("x" ≠ "relationships") ∧
    ((validateJsonSchema (.obj [("x", .num 7)]) = true →
        shallowRepair (.obj [("x", .num 7)]) = some (.obj [("x", .num 7)])) ∧
      ∃ kvs', shallowRepair (.obj [("x", .num 7)]) = some (.obj kvs') ∧
        kvs'.lookup "x" = ([("x", JValue.num 7)]).lookup "x" ∧
        kvs'.lookup "entities" =
          some ((([("x", JValue.num 7)]).lookup "entities").getD (.arr [])) ∧
        kvs'.lookup "relationships" =
          some ((([("x", JValue.num 7)]).lookup "relationships").getD (.arr []))) :=
  ⟨by decide, by decide,
    c4_shallow_repair (.obj [("x", .num 7)]) [("x", .num 7)] "x"
      (by decide) (by decide)⟩

/-! ## Normalizer idempotence (claim C3) -/

/-- A list whose head fails the predicate is untouched by `dropWhile`. -/
theorem dropWhile_self_of_head {p : Char → Bool} {l : List Char}
    (h : ∀ c, l.head? = some c → p c = false) : l.dropWhile p = l := by
  cases l with
  | nil => rfl
  | cons c t =>
    rw [List.dropWhile_cons, h c rfl]
    simp

/-- The head surviving a `dropWhile` fails the predicate. -/
theorem head?_dropWhile_false {p : Char → Bool} (l : List Char) (c : Char)
    (h : (l.dropWhile p).head? = some c) : p c = false := by
  induction l with
  | nil => simp [List.dropWhile] at h
  | cons a t ih =>
    rw [List.dropWhile_cons] at h
    by_cases hp : p a
    · rw [if_pos hp] at h
      exact ih h
    · rw [if_neg hp] at h
      simp at h
      rw [← h]
      simpa using hp

/-- A left-stripped then right-stripped list has nothing left to drop on the
left. -/
theorem dropWhile_after_pyStrip (s : List Char) :
    ((s.dropWhile isStripChar).rdropWhile isStripChar).dropWhile isStripChar =
      (s.dropWhile isStripChar).rdropWhile isStripChar := by
  apply dropWhile_self_of_head
  intro c hc
  obtain ⟨u, hu⟩ := List.rdropWhile_prefix isStripChar (s.dropWhile isStripChar)
  apply head?_dropWhile_false s c
  rw [← hu]
  rcases hb : (s.dropWhile isStripChar).rdropWhile isStripChar with _ | ⟨x, xs⟩
  · rw [hb] at hc
    simp at hc
  · rw [hb] at hc
    simpa using hc

/-- Stripping both ends is idempotent. -/
theorem pyStrip_idempotent (s : List Char) : pyStrip (pyStrip s) = pyStrip s := by
  unfold pyStrip
  rw [dropWhile_after_pyStrip s, List.rdropWhile_idempotent]

/-- One run of the clean-up already ends with a strip, so stripping its
output again changes nothing. -/
theorem pyStrip_normalizeResponseChars (x : List Char) :
    pyStrip (normalizeResponseChars x) = normalizeResponseChars x := by
  unfold normalizeResponseChars
  exact pyStrip_idempotent _

/-- A list starting with the ```` ```json ```` marker also starts with the
```` ``` ```` marker. -/
theorem fence_isPrefixOf_of_fenceJson {l : List Char}
    (h : fenceJsonChars.isPrefixOf l = true) : fenceChars.isPrefixOf l = true := by
  rcases l with _ | ⟨a, _ | ⟨b, _ | ⟨c, rest⟩⟩⟩ <;>
    simp_all [List.isPrefixOf, fenceChars, fenceJsonChars] <;> tauto

/-- Claim C3, amended.  The clean-up step is idempotent on every input whose
cleaned-up form neither starts nor ends with a fence marker; on such inputs
the second pass finds nothing to strip.  (The unconditional claim fails: see
the counterexample.) -/
theorem c3_normalize_idempotent_away_from_fences (x : List Char)
    (h1 : fenceChars.isPrefixOf (normalizeResponseChars x) = false)
    (h2 : fenceChars.isSuffixOf (normalizeResponseChars x) = false) :
    normalizeResponseChars (normalizeResponseChars x) = normalizeResponseChars x := by
  have hj : fenceJsonChars.isPrefixOf (normalizeResponseChars x) = false := by
    by_contra hc
    rw [Bool.not_eq_false] at hc
    rw [fence_isPrefixOf_of_fenceJson hc] at h1
    cases h1
  conv_lhs => rw [normalizeResponseChars]
  simp [pyStrip_normalizeResponseChars, hj, h1, h2]

/-- Witness for the amended C3 at a fence-free input. -/
theorem c3_witness :
    (fenceChars.isPrefixOf (normalizeResponseChars ("abc").data) = false) ∧
    (fenceChars.isSuffixOf (normalizeResponseChars ("abc").data) = false) ∧
    normalizeResponseChars (normalizeResponseChars ("abc").data) =
      normalizeResponseChars ("abc").data :=
  ⟨by decide, by decide,
    c3_normalize_idempotent_away_from_fences ("abc").data (by decide) (by decide)⟩

/-- Counterexample to C3 as stated: on `"``````x"` one pass yields
`"```x"` (the leading fence is stripped, uncovering a second one), and the
second pass strips again, yielding `"x"`. -/
theorem c3_counterexample :
    normalizeResponseChars (normalizeResponseChars ("``````x").data) ≠
      normalizeResponseChars ("``````x").data := by decide

/-! ## Flow-chart renderer contents (claim C5) -/

/-- Claim C5, amended.  The flow-chart text contains the directed-graph
header, one node declaration per entity whose label is the entity's name
alone (the optional value suffix exists only in the diagram renderer, not
here), one style declaration per entity keyed by its kind, and one edge
declaration per relationship labeled by relationship type, all with
identifiers sanitized by replacing spaces and hyphens with underscores. -/
theorem c5_flowchart_contents (g : KnowledgeGraph) (e : Entity)
    (r : Relationship) (he : e ∈ g.entities) (hr : r ∈ g.relationships) :
    "graph TD" ∈ mermaidLines g ∧
    ("    " ++ sanitizeId e.id ++ "[\"" ++ e.name ++ "\"]") ∈ mermaidLines g ∧
    ("    style " ++ sanitizeId e.id ++ " " ++ mermaidStyle e.type) ∈
      mermaidLines g ∧
    ("    " ++ sanitizeId r.source ++ " -" ++ "->|" ++ r.type ++ "| " ++
      sanitizeId r.target) ∈ mermaidLines g := by
  obtain ⟨hn, hs⟩ := mem_mermaidEntityLines he
  refine ⟨List.mem_cons_self _ _, ?_, ?_, ?_⟩
  · exact List.mem_cons_of_mem _ (List.mem_append_left _ hn)
  · exact List.mem_cons_of_mem _ (List.mem_append_left _ hs)
  · exact List.mem_cons_of_mem _
      (List.mem_append_right _ (List.mem_map_of_mem _ hr))

/-- Witness for the amended C5: the worked two-company example.  Both node
declarations, both style lines, the header and the `OWNS` edge all occur in
the rendered text. -/
theorem c5_witness :
    ("graph TD" ∈ mermaidLines
      (KnowledgeGraph.mk
        [Entity.mk "c1" "Company" "Reliance Retail" none,
         Entity.mk "c2" "Company" "Hamleys" none]
        [Relationship.mk "c1" "c2" "OWNS"]) ∧
     "    c1[\"Reliance Retail\"]" ∈ mermaidLines
      (KnowledgeGraph.mk
        [Entity.mk "c1" "Company" "Reliance Retail" none,
         Entity.mk "c2" "Company" "Hamleys" none]
        [Relationship.mk "c1" "c2" "OWNS"]) ∧
     "    c2[\"Hamleys\"]" ∈ mermaidLines
      (KnowledgeGraph.mk
        [Entity.mk "c1" "Company" "Reliance Retail" none,
         Entity.mk "c2" "Company" "Hamleys" none]
        [Relationship.mk "c1" "c2" "OWNS"]) ∧
     ("    c1 -" ++ "->|OWNS| c2") ∈ mermaidLines
      (KnowledgeGraph.mk
        [Entity.mk "c1" "Company" "Reliance Retail" none,
         Entity.mk "c2" "Company" "Hamleys" none]
        [Relationship.mk "c1" "c2" "OWNS"])) := by
  have h1 := c5_flowchart_contents
    (KnowledgeGraph.mk
      [Entity.mk "c1" "Company" "Reliance Retail" none,
       Entity.mk "c2" "Company" "Hamleys" none]
      [Relationship.mk "c1" "c2" "OWNS"])
    (Entity.mk "c1" "Company" "Reliance Retail" none)
    (Relationship.mk "c1" "c2" "OWNS")
    (List.mem_cons_self _ _) (List.mem_cons_self _ _)
  have h2 := c5_flowchart_contents
    (KnowledgeGraph.mk
      [Entity.mk "c1" "Company" "Reliance Retail" none,
       Entity.mk "c2" "Company" "Hamleys" none]
      [Relationship.mk "c1" "c2" "OWNS"])
    (Entity.mk "c2" "Company" "Hamleys" none)
    (Relationship.mk "c1" "c2" "OWNS")
    (List.mem_cons_of_mem _ (List.mem_cons_self _ _)) (List.mem_cons_self _ _)
  exact ⟨h1.1, h1.2.1, h2.2.1, h1.2.2.2⟩

/-- Counterexample to C5 as stated: an entity carrying a (truthy) value is
rendered with its bare name as label — the value string appears nowhere in
the flow-chart text, so no node declaration is suffixed with the value in
parentheses. -/
theorem c5_counterexample :
    (Entity.mk "a" "Company" "N" (some "momoV77")).value = some "momoV77" ∧
    ("    a[\"N\"]") ∈ mermaidLines
      (KnowledgeGraph.mk [Entity.mk "a" "Company" "N" (some "momoV77")] []) ∧
    listHasSub ("momoV77").data
      (mermaidContent
        (KnowledgeGraph.mk [Entity.mk "a" "Company" "N" (some "momoV77")] [])).data
      = false := by
  refine ⟨rfl, ?_, by decide⟩
  exact List.mem_cons_of_mem _ (List.mem_append_left _ (List.mem_cons_self _ _))

/-! ### Number round-trip -/

/-- Digit characters are digits with the right value. -/
theorem digitChar_facts :
    ∀ n, n < 10 → isDigitChar (digitChar n) = true ∧
      digitVal (digitChar n) = n := by decide

/-- With fuel above the argument, `natCharsAux` yields a nonempty digit
run. -/
theorem natCharsAux_digits :
    ∀ fuel n, n < fuel → natCharsAux fuel n ≠ [] ∧
      ∀ c ∈ natCharsAux fuel n, isDigitChar c = true := by
  intro fuel
  induction fuel with
  | zero => omega
  | succ f ih =>
    intro n hn
    rw [natCharsAux]
    by_cases h10 : n < 10
    · simp only [h10, if_true]
      refine ⟨by simp, ?_⟩
      intro c hc
      rw [List.mem_singleton] at hc
      subst hc
      exact (digitChar_facts n h10).1
    · simp only [h10, if_false]
      have hlt : n / 10 < f := by omega
      obtain ⟨hne, hall⟩ := ih (n / 10) hlt
      refine ⟨by simp [hne], ?_⟩
      intro c hc
      rcases List.mem_append.mp hc with hc | hc
      · exact hall c hc
      · rw [List.mem_singleton] at hc
        subst hc
        exact (digitChar_facts (n % 10) (Nat.mod_lt n (by omega))).1

/-- Appending one digit multiplies the accumulated value by ten. -/
theorem digitsToNat_append (ds : List Char) (c : Char) :
    digitsToNat (ds ++ [c]) = digitsToNat ds * 10 + digitVal c := by
  simp [digitsToNat, List.foldl_append]

/-- Reading back the digit run of `n` yields `n`. -/
theorem digitsToNat_natCharsAux :
    ∀ fuel n, n < fuel → digitsToNat (natCharsAux fuel n) = n := by
  intro fuel
  induction fuel with
  | zero => omega
  | succ f ih =>
    intro n hn
    rw [natCharsAux]
    by_cases h10 : n < 10
    · simp only [h10, if_true]
      simpa [digitsToNat] using (digitChar_facts n h10).2
    · simp only [h10, if_false]
      rw [digitsToNat_append, ih (n / 10) (by omega),
        (digitChar_facts (n % 10) (Nat.mod_lt n (by omega))).2]
      omega

/-- A run of characters satisfying `p` followed by a tail whose head fails
`p` splits cleanly under `takeWhile`/`dropWhile`. -/
theorem takeWhile_dropWhile_split {p : Char → Bool} :
    ∀ (l1 l2 : List Char), (∀ c ∈ l1, p c = true) →
      (∀ c, l2.head? = some c → p c = false) →
      (l1 ++ l2).takeWhile p = l1 ∧ (l1 ++ l2).dropWhile p = l2 := by
  intro l1
  induction l1 with
  | nil =>
    intro l2 _ h2
    cases l2 with
    | nil => exact ⟨rfl, rfl⟩
    | cons c t =>
      have := h2 c rfl
      constructor
      · rw [List.nil_append, List.takeWhile_cons, this]
        simp
      · rw [List.nil_append, List.dropWhile_cons, this]
        simp
  | cons a l1' ih =>
    intro l2 h1 h2
    have ha : p a = true := h1 a (List.mem_cons_self _ _)
    obtain ⟨ht, hd⟩ := ih l2 (fun c hc => h1 c (List.mem_cons_of_mem _ hc)) h2
    constructor
    · rw [List.cons_append, List.takeWhile_cons, ha]
      simp [ht]
    · rw [List.cons_append, List.dropWhile_cons, ha]
      simpa using hd

/-- Parsing the rendered digit run of `n` recovers `n` and the tail. -/
theorem parseNatNumber_natChars (n : Nat) (rest : List Char)
    (hrest : GoodTail rest) :
    parseNatNumber (natChars n ++ rest) = some (n, rest) := by
  obtain ⟨hne, hall⟩ := natCharsAux_digits (n + 1) n (by omega)
  have hne' : natChars n ≠ [] := hne
  have hall' : ∀ c ∈ natChars n, isDigitChar c = true := hall
  obtain ⟨ht, hd⟩ := takeWhile_dropWhile_split (natChars n) rest hall' hrest
  have hv : digitsToNat (natChars n) = n :=
    digitsToNat_natCharsAux (n + 1) n (by omega)
  rw [parseNatNumber, ht, hd, hv]
  simp [hne']

/-- The number parser on a list not starting with a minus sign. -/
theorem parseNumber_cons_of_ne (c : Char) (t : List Char) (hc : c ≠ '-') :
    parseNumber (c :: t) =
      (parseNatNumber (c :: t)).map (fun p => ((p.1 : Int), p.2)) := by
  rw [parseNumber.eq_def]
  split
  · rename_i heq
    injection heq with h1 _
    exact absurd h1 hc
  · rfl

/-- Parsing the rendered integer recovers it exactly. -/
theorem parseNumber_intChars (n : Int) (rest : List Char)
    (hrest : GoodTail rest) :
    parseNumber (intChars n ++ rest) = some (n, rest) := by
  by_cases hneg : n < 0
  · rw [intChars, if_pos hneg, List.cons_append, parseNumber,
      parseNatNumber_natChars n.natAbs rest hrest]
    simp only [Option.map_some']
    congr 1
    congr 1
    omega
  · rw [intChars, if_neg hneg]
    obtain ⟨hne, hall⟩ := natCharsAux_digits (n.natAbs + 1) n.natAbs (by omega)
    have hne' : natChars n.natAbs ≠ [] := hne
    have hall' : ∀ c ∈ natChars n.natAbs, isDigitChar c = true := hall
    have hv := parseNatNumber_natChars n.natAbs rest hrest
    rcases hh : natChars n.natAbs with _ | ⟨c, t⟩
    · exact absurd hh hne'
    · have hcdig : isDigitChar c = true := by
        apply hall'
        rw [hh]
        exact List.mem_cons_self _ _
      have hcne : c ≠ '-' := by
        intro hcm
        rw [hcm] at hcdig
        exact absurd hcdig (by decide)
      rw [hh] at hv
      rw [List.cons_append] at hv
      show parseNumber (c :: (t ++ rest)) = some (n, rest)
      rw [parseNumber_cons_of_ne c (t ++ rest) hcne, hv]
      simp only [Option.map_some']
      congr 2
      omega

/-! ### String round-trip -/

/-- Hex digit characters decode to their value. -/
theorem hexVal_hexDigitChar : ∀ m, m < 16 → hexVal (hexDigitChar m) = some m := by
  decide

/-- Parsing a `\u00XX` escape decodes the two low hex digits. -/
theorem parseStringBody_unicode (h3 h4 : Char) (a b : Nat) (t : List Char)
    (ha : hexVal h3 = some a) (hb : hexVal h4 = some b) :
    parseStringBody ('\\' :: 'u' :: '0' :: '0' :: h3 :: h4 :: t) =
      (parseStringBody t).map (fun p => (Char.ofNat (a * 16 + b) :: p.1, p.2)) := by
  have h0 : hexVal '0' = some 0 := by decide
  rw [parseStringBody, h0, ha, hb]
  norm_num

/-- The string-body parser passes a plain character through. -/
theorem parseStringBody_cons_lit (c : Char) (t : List Char) (h1 : c ≠ '"')
    (h2 : c ≠ '\\') (h3 : ¬c.toNat < 32) :
    parseStringBody (c :: t) =
      (parseStringBody t).map (fun p => (c :: p.1, p.2)) := by
  rw [parseStringBody.eq_def]
  split
  · rename_i heq
    cases heq
  · rename_i heq
    injection heq with ha _
    exact absurd ha h1
  · rename_i heq
    injection heq with ha _
    exact absurd ha h2
  · rename_i heq
    injection heq with ha _
    exact absurd ha h2
  · rename_i heq
    injection heq with ha hb
    subst ha
    subst hb
    rw [if_neg h3]

/-- Parsing an escaped string body up to the closing quote recovers the
original characters and leaves the tail intact. -/
theorem parseStringBody_escape :
    ∀ (s rest : List Char),
      parseStringBody (escapeChars s ++ '"' :: rest) = some (s, rest) := by
  intro s
  induction s with
  | nil =>
    intro rest
    rfl
  | cons c s' ih =>
    intro rest
    rw [escapeChars, List.append_assoc]
    by_cases hq : c = '"'
    · subst hq
      rw [show escChar '"' = ['\\', '"'] from rfl]
      show (parseStringBody (escapeChars s' ++ '"' :: rest)).map _ = _
      rw [ih rest]
      rfl
    · by_cases hb : c = '\\'
      · subst hb
        rw [show escChar '\\' = ['\\', '\\'] from rfl]
        show (parseStringBody (escapeChars s' ++ '"' :: rest)).map _ = _
        rw [ih rest]
        rfl
      · by_cases hn : c = '\n'
        · subst hn
          rw [show escChar '\n' = ['\\', 'n'] from rfl]
          show (parseStringBody (escapeChars s' ++ '"' :: rest)).map _ = _
          rw [ih rest]
          rfl
        · by_cases htb : c = '\t'
          · subst htb
            rw [show escChar '\t' = ['\\', 't'] from rfl]
            show (parseStringBody (escapeChars s' ++ '"' :: rest)).map _ = _
            rw [ih rest]
            rfl
          · by_cases hr : c = '\x0d'
            · subst hr
              rw [show escChar '\x0d' = ['\\', 'r'] from rfl]
              show (parseStringBody (escapeChars s' ++ '"' :: rest)).map _ = _
              rw [ih rest]
              rfl
            · by_cases hbs : c = '\x08'
              · subst hbs
                rw [show escChar '\x08' = ['\\', 'b'] from rfl]
                show (parseStringBody (escapeChars s' ++ '"' :: rest)).map _ = _
                rw [ih rest]
                rfl
              · by_cases hf : c = '\x0c'
                · subst hf
                  rw [show escChar '\x0c' = ['\\', 'f'] from rfl]
                  show (parseStringBody (escapeChars s' ++ '"' :: rest)).map _ = _
                  rw [ih rest]
                  rfl
                · by_cases hc : c.toNat < 32
                  · rw [escChar, if_neg hq, if_neg hb, if_neg hn, if_neg htb,
                      if_neg hr, if_neg hbs, if_neg hf, if_pos hc]
                    rw [show (['\\', 'u', '0', '0', hexDigitChar (c.toNat / 16),
                        hexDigitChar (c.toNat % 16)] ++
                        (escapeChars s' ++ '"' :: rest)) =
                      '\\' :: 'u' :: '0' :: '0' :: hexDigitChar (c.toNat / 16) ::
                        hexDigitChar (c.toNat % 16) ::
                        (escapeChars s' ++ '"' :: rest) from rfl]
                    rw [parseStringBody_unicode _ _ (c.toNat / 16) (c.toNat % 16) _
                      (hexVal_hexDigitChar _ (by omega))
                      (hexVal_hexDigitChar _ (Nat.mod_lt _ (by omega)))]
                    rw [ih rest]
                    have hcn : c.toNat / 16 * 16 + c.toNat % 16 = c.toNat := by
                      omega
                    rw [hcn, Char.ofNat_toNat]
                    rfl
                  · rw [escChar, if_neg hq, if_neg hb, if_neg hn, if_neg htb,
                      if_neg hr, if_neg hbs, if_neg hf, if_neg hc]
                    rw [List.singleton_append,
                      parseStringBody_cons_lit c _ hq hb hc, ih rest]
                    rfl

/-! ### Whitespace and token-head lemmas -/

/-- Skipping whitespace passes over a non-whitespace head unchanged. -/
theorem skipWs_cons_not {c : Char} (t : List Char) (h : isJsonWs c = false) :
    skipWs (c :: t) = c :: t := by
  rw [skipWs, List.dropWhile_cons, h]
  simp

/-- Skipping whitespace absorbs a leading all-whitespace run. -/
theorem skipWs_append_ws :
    ∀ (w x : List Char), (∀ c ∈ w, isJsonWs c = true) →
      skipWs (w ++ x) = skipWs x := by
  intro w
  induction w with
  | nil => intro x _; rfl
  | cons c t ih =>
    intro x hw
    rw [List.cons_append, skipWs, List.dropWhile_cons,
      hw c (List.mem_cons_self _ _)]
    exact ih x (fun d hd => hw d (List.mem_cons_of_mem _ hd))

/-- Indentation runs are all whitespace. -/
theorem indentChars_ws (k : Nat) : ∀ c ∈ indentChars k, isJsonWs c = true := by
  intro c hc
  rw [indentChars] at hc
  rw [List.eq_of_mem_replicate hc]
  decide

/-- The value parser only looks at its input through `skipWs`, so a leading
whitespace run is invisible to it. -/
theorem parseValue_ws (fuel : Nat) (w x : List Char)
    (hw : ∀ c ∈ w, isJsonWs c = true) :
    parseValue fuel (w ++ x) = parseValue fuel x := by
  cases fuel with
  | zero => rfl
  | succ f => rw [parseValue, parseValue, skipWs_append_ws w x hw]

/-- A digit is not whitespace and not a closing delimiter. -/
theorem digitChar_not_special {c : Char} (h : isDigitChar c = true) :
    isJsonWs c = false ∧ c ≠ ']' ∧ c ≠ '\x7d' := by
  refine ⟨?_, ?_, ?_⟩
  · by_contra hws
    rw [Bool.not_eq_false] at hws
    simp [isJsonWs] at hws
    rcases hws with ((rfl | rfl) | rfl) | rfl <;> revert h <;> decide
  · intro hh
    subst hh
    exact absurd h (by decide)
  · intro hh
    subst hh
    exact absurd h (by decide)

/-- The rendered text of any value starts with a non-whitespace character
that is not a closing delimiter. -/
theorem renderJson_head (v : JValue) (k : Nat) :
    ∃ c t, renderJson v k = c :: t ∧ isJsonWs c = false ∧
      c ≠ ']' ∧ c ≠ '\x7d' := by
  cases v with
  | null =>
    refine ⟨'n', _, rfl, ?_, ?_, ?_⟩ <;> decide
  | bool b =>
    cases b with
    | true => refine ⟨'t', _, rfl, ?_, ?_, ?_⟩ <;> decide
    | false => refine ⟨'f', _, rfl, ?_, ?_, ?_⟩ <;> decide
  | str s =>
    refine ⟨'"', _, rfl, ?_, ?_, ?_⟩ <;> decide
  | num n =>
    show ∃ c t, intChars n = c :: t ∧ _
    by_cases hneg : n < 0
    · rw [intChars, if_pos hneg]
      exact ⟨'-', _, rfl, by decide, by decide, by decide⟩
    · rw [intChars, if_neg hneg]
      obtain ⟨hne, hall⟩ := natCharsAux_digits (n.natAbs + 1) n.natAbs (by omega)
      have hne' : natChars n.natAbs ≠ [] := hne
      have hall' : ∀ c ∈ natChars n.natAbs, isDigitChar c = true := hall
      rcases hh : natChars n.natAbs with _ | ⟨c, t⟩
      · exact absurd hh hne'
      · have hd : isDigitChar c = true := by
          apply hall'
          rw [hh]
          exact List.mem_cons_self _ _
        obtain ⟨h1, h2, h3⟩ := digitChar_not_special hd
        exact ⟨c, t, rfl, h1, h2, h3⟩
  | arr vs =>
    cases vs with
    | nil => refine ⟨'[', _, rfl, ?_, ?_, ?_⟩ <;> decide
    | cons v vs' => refine ⟨'[', _, rfl, ?_, ?_, ?_⟩ <;> decide
  | obj ms =>
    cases ms with
    | nil => refine ⟨'\x7b', _, rfl, ?_, ?_, ?_⟩ <;> decide
    | cons m ms' => refine ⟨'\x7b', _, rfl, ?_, ?_, ?_⟩ <;> decide

/-- The value parser on a nonempty array literal defers to the element
parser. -/
theorem parseValue_bracket_nonempty (f : Nat) (X : List Char) (c : Char)
    (t : List Char) (hs : skipWs X = c :: t) (hc : c ≠ ']') :
    parseValue (f + 1) ('[' :: X) =
      (parseElems f X).map (fun p => (JValue.arr p.1, p.2)) := by
  have h0 : skipWs ('[' :: X) = '[' :: X := skipWs_cons_not X (by decide)
  rw [parseValue, h0]
  show (match skipWs X with
    | ']' :: r => some (JValue.arr [], r)
    | _ => (parseElems f X).map
        (fun (p : List JValue × List Char) => (JValue.arr p.1, p.2))) = _
  rw [hs]
  split
  · rename_i heq
    injection heq with ha _
    exact absurd ha hc
  · rfl

/-- The value parser on a nonempty object literal defers to the member
parser. -/
theorem parseValue_brace_nonempty (f : Nat) (X : List Char) (c : Char)
    (t : List Char) (hs : skipWs X = c :: t) (hc : c ≠ '\x7d') :
    parseValue (f + 1) ('\x7b' :: X) =
      (parseFields f X).map (fun p => (JValue.obj p.1, p.2)) := by
  have h0 : skipWs ('\x7b' :: X) = '\x7b' :: X := skipWs_cons_not X (by decide)
  rw [parseValue, h0]
  show (match skipWs X with
    | '\x7d' :: r => some (JValue.obj [], r)
    | _ => (parseFields f X).map
        (fun (p : List (String × JValue) × List Char) => (JValue.obj p.1, p.2))) = _
  rw [hs]
  split
  · rename_i heq
    injection heq with ha _
    exact absurd ha hc
  · rfl

/-- The value parser hands anything headed by a digit or a minus sign to
the number parser. -/
theorem parseValue_to_number (f : Nat) (input : List Char) (c : Char)
    (t : List Char) (hs : skipWs input = c :: t)
    (hc : isDigitChar c = true ∨ c = '-') :
    parseValue (f + 1) input =
      (parseNumber (c :: t)).map (fun p => (JValue.num p.1, p.2)) := by
  have hne : ∀ d : Char, c = d → isDigitChar d = false → d ≠ '-' → False := by
    intro d hd h1 h2
    subst hd
    rcases hc with hc | hc
    · rw [hc] at h1
      cases h1
    · exact h2 hc
  rw [parseValue, hs]
  split
  · rename_i heq
    injection heq with ha _
    exact hne _ ha (by decide) (by decide) |>.elim
  · rename_i heq
    injection heq with ha _
    exact hne _ ha (by decide) (by decide) |>.elim
  · rename_i heq
    injection heq with ha _
    exact hne _ ha (by decide) (by decide) |>.elim
  · rename_i heq
    injection heq with ha _
    exact hne _ ha (by decide) (by decide) |>.elim
  · rename_i heq
    injection heq with ha _
    exact hne _ ha (by decide) (by decide) |>.elim
  · rename_i heq
    injection heq with ha _
    exact hne _ ha (by decide) (by decide) |>.elim
  · rfl

/-! ### Parser dispatch lemmas -/

/-- After one parsed element, the element parser inspects the next token. -/
theorem parseElems_cons (f : Nat) (input : List Char) (v : JValue)
    (rest : List Char) (hv : parseValue f input = some (v, rest)) :
    parseElems (f + 1) input =
      (match skipWs rest with
       | ',' :: rest' => (parseElems f rest').map
           (fun (p : List JValue × List Char) => (v :: p.1, p.2))
       | ']' :: rest' => some ([v], rest')
       | _ => none) := by
  rw [parseElems, hv]

/-- A comma continues the element list. -/
theorem parseElems_comma (f : Nat) (input : List Char) (v : JValue)
    (rest rest' : List Char) (hv : parseValue f input = some (v, rest))
    (hs : skipWs rest = ',' :: rest') :
    parseElems (f + 1) input =
      (parseElems f rest').map
        (fun (p : List JValue × List Char) => (v :: p.1, p.2)) := by
  rw [parseElems_cons f input v rest hv, hs]
  rfl

/-- A closing bracket ends the element list. -/
theorem parseElems_close (f : Nat) (input : List Char) (v : JValue)
    (rest rest' : List Char) (hv : parseValue f input = some (v, rest))
    (hs : skipWs rest = ']' :: rest') :
    parseElems (f + 1) input = some ([v], rest') := by
  rw [parseElems_cons f input v rest hv, hs]
  rfl

/-- After one parsed `"key": value` member, the member parser inspects the
next token. -/
theorem parseFields_cons (f : Nat) (input X : List Char) (kd : List Char)
    (rest1 rest2 : List Char) (v : JValue) (rest3 : List Char)
    (h1 : skipWs input = '"' :: X)
    (h2 : parseStringBody X = some (kd, rest1))
    (h3 : skipWs rest1 = ':' :: rest2)
    (h4 : parseValue f rest2 = some (v, rest3)) :
    parseFields (f + 1) input =
      (match skipWs rest3 with
       | ',' :: rest4 => (parseFields f rest4).map
           (fun (p : List (String × JValue) × List Char) => ((⟨kd⟩, v) :: p.1, p.2))
       | '\x7d' :: rest4 => some ([(⟨kd⟩, v)], rest4)
       | _ => none) := by
  rw [parseFields, h1]
  simp only [h2, h3, h4]

/-- A comma continues the member list. -/
theorem parseFields_comma (f : Nat) (input X : List Char) (kd : List Char)
    (rest1 rest2 : List Char) (v : JValue) (rest3 rest4 : List Char)
    (h1 : skipWs input = '"' :: X)
    (h2 : parseStringBody X = some (kd, rest1))
    (h3 : skipWs rest1 = ':' :: rest2)
    (h4 : parseValue f rest2 = some (v, rest3))
    (h5 : skipWs rest3 = ',' :: rest4) :
    parseFields (f + 1) input =
      (parseFields f rest4).map
        (fun (p : List (String × JValue) × List Char) => ((⟨kd⟩, v) :: p.1, p.2)) := by
  rw [parseFields_cons f input X kd rest1 rest2 v rest3 h1 h2 h3 h4, h5]
  rfl

/-- A closing brace ends the member list. -/
theorem parseFields_close (f : Nat) (input X : List Char) (kd : List Char)
    (rest1 rest2 : List Char) (v : JValue) (rest3 rest4 : List Char)
    (h1 : skipWs input = '"' :: X)
    (h2 : parseStringBody X = some (kd, rest1))
    (h3 : skipWs rest1 = ':' :: rest2)
    (h4 : parseValue f rest2 = some (v, rest3))
    (h5 : skipWs rest3 = '\x7d' :: rest4) :
    parseFields (f + 1) input = some ([(⟨kd⟩, v)], rest4) := by
  rw [parseFields_cons f input X kd rest1 rest2 v rest3 h1 h2 h3 h4, h5]
  rfl

/-- The value parser recovers a rendered integer. -/
theorem parseValue_intChars (f : Nat) (n : Int) (rest : List Char)
    (hrest : GoodTail rest) :
    parseValue (f + 1) (intChars n ++ rest) = some (.num n, rest) := by
  by_cases hneg : n < 0
  · have hshape : intChars n ++ rest = '-' :: (natChars n.natAbs ++ rest) := by
      rw [intChars, if_pos hneg, List.cons_append]
    have hs : skipWs ('-' :: (natChars n.natAbs ++ rest)) =
        '-' :: (natChars n.natAbs ++ rest) := skipWs_cons_not _ (by decide)
    rw [hshape, parseValue_to_number f _ '-' _ hs (Or.inr rfl), ← hshape,
      parseNumber_intChars n rest hrest]
    rfl
  · obtain ⟨hne, hall⟩ := natCharsAux_digits (n.natAbs + 1) n.natAbs (by omega)
    have hne' : natChars n.natAbs ≠ [] := hne
    have hall' : ∀ c ∈ natChars n.natAbs, isDigitChar c = true := hall
    rcases hh : natChars n.natAbs with _ | ⟨c, t⟩
    · exact absurd hh hne'
    · have hd : isDigitChar c = true := by
        apply hall'
        rw [hh]
        exact List.mem_cons_self _ _
      have hshape : intChars n ++ rest = c :: (t ++ rest) := by
        rw [intChars, if_neg hneg, hh, List.cons_append]
      have hs : skipWs (c :: (t ++ rest)) = c :: (t ++ rest) :=
        skipWs_cons_not _ (digitChar_not_special hd).1
      rw [hshape, parseValue_to_number f _ c _ hs (Or.inl hd), ← hshape,
        parseNumber_intChars n rest hrest]
      rfl

/-- The value parser recovers a rendered string. -/
theorem parseValue_str (f : Nat) (s : String) (rest : List Char) :
    parseValue (f + 1) (('"' :: (escapeChars s.data ++ ['"'])) ++ rest) =
      some (.str s, rest) := by
  have hshape : ('"' :: (escapeChars s.data ++ ['"'])) ++ rest =
      '"' :: (escapeChars s.data ++ '"' :: rest) := by
    simp
  rw [hshape]
  show (parseStringBody (escapeChars s.data ++ '"' :: rest)).map
      (fun p => (JValue.str ⟨p.1⟩, p.2)) = some (.str s, rest)
  rw [parseStringBody_escape s.data rest]
  rfl

/-- The first token of a rendered nonempty element list is the head of its
first value: not whitespace and not a closing delimiter. -/
theorem skipWs_items (v : JValue) (vs : List JValue) (k : Nat)
    (TAIL : List Char) :
    ∃ c t, skipWs ('\n' :: (renderItems (v :: vs) (k + 1) ++ TAIL)) = c :: t ∧
      isJsonWs c = false ∧ c ≠ ']' ∧ c ≠ '\x7d' := by
  obtain ⟨c, t, hrend, hws, h1, h2⟩ := renderJson_head v (k + 1)
  have hwsall : ∀ d ∈ '\n' :: indentChars (k + 1), isJsonWs d = true := by
    intro d hd
    rcases List.mem_cons.mp hd with rfl | hd
    · decide
    · exact indentChars_ws _ d hd
  cases vs with
  | nil =>
    have hshape : '\n' :: (renderItems [v] (k + 1) ++ TAIL) =
        ('\n' :: indentChars (k + 1)) ++ (c :: (t ++ TAIL)) := by
      rw [renderItems, hrend]
      simp
    rw [hshape, skipWs_append_ws _ _ hwsall, skipWs_cons_not _ hws]
    exact ⟨c, t ++ TAIL, rfl, hws, h1, h2⟩
  | cons v2 vs' =>
    have hshape : '\n' :: (renderItems (v :: v2 :: vs') (k + 1) ++ TAIL) =
        ('\n' :: indentChars (k + 1)) ++
          (c :: (t ++ (',' :: '\n' :: renderItems (v2 :: vs') (k + 1) ++ TAIL))) := by
      rw [renderItems, hrend]
      simp
    rw [hshape, skipWs_append_ws _ _ hwsall, skipWs_cons_not _ hws]
    exact ⟨c, _, rfl, hws, h1, h2⟩

/-- The first token of a rendered nonempty member list is the opening quote
of its first key. -/
theorem skipWs_members_head (key : String) (v : JValue)
    (ms : List (String × JValue)) (k : Nat) (TAIL : List Char) :
    ∃ t, skipWs ('\n' :: (renderMembers ((key, v) :: ms) (k + 1) ++ TAIL)) =
      '"' :: t := by
  have hwsall : ∀ d ∈ '\n' :: indentChars (k + 1), isJsonWs d = true := by
    intro d hd
    rcases List.mem_cons.mp hd with rfl | hd
    · decide
    · exact indentChars_ws _ d hd
  cases ms with
  | nil =>
    have hshape : '\n' :: (renderMembers [(key, v)] (k + 1) ++ TAIL) =
        ('\n' :: indentChars (k + 1)) ++
          ('"' :: ((escapeChars key.data ++ '"' :: ':' :: ' ' ::
            renderJson v (k + 1)) ++ TAIL)) := by
      rw [renderMembers]
      simp
    rw [hshape, skipWs_append_ws _ _ hwsall, skipWs_cons_not _ (by decide)]
    exact ⟨_, rfl⟩
  | cons m2 ms' =>
    have hshape : '\n' :: (renderMembers ((key, v) :: m2 :: ms') (k + 1) ++ TAIL) =
        ('\n' :: indentChars (k + 1)) ++
          ('"' :: ((escapeChars key.data ++ '"' :: ':' :: ' ' ::
            renderJson v (k + 1)) ++
              (',' :: '\n' :: renderMembers (m2 :: ms') (k + 1) ++ TAIL))) := by
      rw [renderMembers]
      simp
    rw [hshape, skipWs_append_ws _ _ hwsall, skipWs_cons_not _ (by decide)]
    exact ⟨_, rfl⟩

/-- Every value has positive size. -/
theorem jsize_pos (v : JValue) : 1 ≤ jsize v := by
  cases v <;> simp [jsize]

/-- Every element list has positive size. -/
theorem jsizeElems_pos (vs : List JValue) : 1 ≤ jsizeElems vs := by
  cases vs with
  | nil => simp [jsizeElems]
  | cons v vs' =>
    simp only [jsizeElems]
    omega

/-- Every member list has positive size. -/
theorem jsizeFields_pos (ms : List (String × JValue)) : 1 ≤ jsizeFields ms := by
  cases ms with
  | nil => simp [jsizeFields]
  | cons m ms' =>
    rcases m with ⟨key, v⟩
    simp only [jsizeFields]
    omega

/-- A tail headed by a non-digit is a good tail. -/
theorem goodTail_cons {c : Char} (t : List Char) (h : isDigitChar c = false) :
    GoodTail (c :: t) := by
  intro d hd
  rw [List.head?_cons] at hd
  injection hd with hd
  rw [← hd]
  exact h

/-- The empty tail is a good tail. -/
theorem goodTail_nil : GoodTail [] := by
  intro d hd
  simp at hd

/-- A newline followed by indentation is all whitespace. -/
theorem ws_nl_indent (k : Nat) : ∀ d ∈ '\n' :: indentChars k, isJsonWs d = true := by
  intro d hd
  rcases List.mem_cons.mp hd with rfl | hd
  · decide
  · exact indentChars_ws _ d hd

/-- Round-trip of the pretty printer and the parser, by induction on the
parser fuel: with fuel at least the value's size, parsing the rendered text
returns the value and the untouched tail. -/
theorem roundtrip_main : ∀ n : Nat,
    (∀ v k rest, jsize v ≤ n → GoodTail rest →
      parseValue n (renderJson v k ++ rest) = some (v, rest)) ∧
    (∀ vs k rest, vs ≠ [] → jsizeElems vs ≤ n →
      parseElems n ('\n' :: (renderItems vs (k + 1) ++
        '\n' :: (indentChars k ++ ']' :: rest))) = some (vs, rest)) ∧
    (∀ ms k rest, ms ≠ [] → jsizeFields ms ≤ n →
      parseFields n ('\n' :: (renderMembers ms (k + 1) ++
        '\n' :: (indentChars k ++ '\x7d' :: rest))) = some (ms, rest)) := by
  intro n
  induction n with
  | zero =>
    refine ⟨?_, ?_, ?_⟩
    · intro v k rest hsz _
      have := jsize_pos v
      omega
    · intro vs k rest _ hsz
      have := jsizeElems_pos vs
      omega
    · intro ms k rest _ hsz
      have := jsizeFields_pos ms
      omega
  | succ f ih =>
    obtain ⟨ihV, ihE, ihF⟩ := ih
    refine ⟨?_, ?_, ?_⟩
    · intro v k rest hsz hrest
      cases v with
      | null => rfl
      | bool b => cases b <;> rfl
      | num n => exact parseValue_intChars f n rest hrest
      | str s => exact parseValue_str f s rest
      | arr vs =>
        cases vs with
        | nil => rfl
        | cons v vs' =>
          have hshape : renderJson (.arr (v :: vs')) k ++ rest =
              '[' :: ('\n' :: (renderItems (v :: vs') (k + 1) ++
                '\n' :: (indentChars k ++ ']' :: rest))) := by
            rw [renderJson]
            simp
          rw [hshape]
          obtain ⟨c, t, hskip, _, hbr, _⟩ :=
            skipWs_items v vs' k ('\n' :: (indentChars k ++ ']' :: rest))
          rw [parseValue_bracket_nonempty f _ c t hskip hbr]
          rw [ihE (v :: vs') k rest (by simp)
            (by rw [jsize] at hsz; omega)]
          rfl
      | obj ms =>
        cases ms with
        | nil => rfl
        | cons m ms' =>
          rcases m with ⟨key, v⟩
          have hshape : renderJson (.obj ((key, v) :: ms')) k ++ rest =
              '\x7b' :: ('\n' :: (renderMembers ((key, v) :: ms') (k + 1) ++
                '\n' :: (indentChars k ++ '\x7d' :: rest))) := by
            rw [renderJson]
            simp
          rw [hshape]
          obtain ⟨t, hskip⟩ := skipWs_members_head key v ms' k
            ('\n' :: (indentChars k ++ '\x7d' :: rest))
          rw [parseValue_brace_nonempty f _ '"' t hskip (by decide)]
          rw [ihF ((key, v) :: ms') k rest (by simp)
            (by rw [jsize] at hsz; omega)]
          rfl
    · intro vs k rest hne hsz
      rcases vs with _ | ⟨v, vs'⟩
      · exact absurd rfl hne
      cases vs' with
      | nil =>
        have hI : '\n' :: (renderItems [v] (k + 1) ++
            '\n' :: (indentChars k ++ ']' :: rest)) =
            ('\n' :: indentChars (k + 1)) ++ (renderJson v (k + 1) ++
              ('\n' :: (indentChars k ++ ']' :: rest))) := by
          rw [renderItems]
          simp
        have hsz' : jsize v ≤ f := by
          rw [jsizeElems, jsizeElems] at hsz
          omega
        have hval : parseValue f ('\n' :: (renderItems [v] (k + 1) ++
            '\n' :: (indentChars k ++ ']' :: rest))) =
            some (v, '\n' :: (indentChars k ++ ']' :: rest)) := by
          rw [hI, parseValue_ws f _ _ (ws_nl_indent (k + 1))]
          exact ihV v (k + 1) _ hsz' (goodTail_cons _ (by decide))
        have hclose : skipWs ('\n' :: (indentChars k ++ ']' :: rest)) =
            ']' :: rest := by
          have hsplit : '\n' :: (indentChars k ++ ']' :: rest) =
              ('\n' :: indentChars k) ++ (']' :: rest) := by simp
          rw [hsplit, skipWs_append_ws _ _ (ws_nl_indent k),
            skipWs_cons_not _ (by decide)]
        exact parseElems_close f _ v _ rest hval hclose
      | cons v2 vsB =>
        have hI : '\n' :: (renderItems (v :: v2 :: vsB) (k + 1) ++
            '\n' :: (indentChars k ++ ']' :: rest)) =
            ('\n' :: indentChars (k + 1)) ++ (renderJson v (k + 1) ++
              (',' :: ('\n' :: (renderItems (v2 :: vsB) (k + 1) ++
                '\n' :: (indentChars k ++ ']' :: rest))))) := by
          rw [renderItems]
          simp
        have hsz' : jsize v ≤ f := by
          rw [jsizeElems] at hsz
          have := jsizeElems_pos (v2 :: vsB)
          omega
        have hval : parseValue f ('\n' :: (renderItems (v :: v2 :: vsB) (k + 1) ++
            '\n' :: (indentChars k ++ ']' :: rest))) =
            some (v, ',' :: ('\n' :: (renderItems (v2 :: vsB) (k + 1) ++
              '\n' :: (indentChars k ++ ']' :: rest)))) := by
          rw [hI, parseValue_ws f _ _ (ws_nl_indent (k + 1))]
          exact ihV v (k + 1) _ hsz' (goodTail_cons _ (by decide))
        rw [parseElems_comma f _ v _ _ hval (skipWs_cons_not _ (by decide))]
        rw [ihE (v2 :: vsB) k rest (by simp)
          (by rw [jsizeElems] at hsz; have := jsize_pos v; omega)]
        rfl
    · intro ms k rest hne hsz
      rcases ms with _ | ⟨⟨key, v⟩, ms'⟩
      · exact absurd rfl hne
      cases ms' with
      | nil =>
        have hI : '\n' :: (renderMembers [(key, v)] (k + 1) ++
            '\n' :: (indentChars k ++ '\x7d' :: rest)) =
            ('\n' :: indentChars (k + 1)) ++ ('"' :: (escapeChars key.data ++
              '"' :: (':' :: (' ' :: (renderJson v (k + 1) ++
                ('\n' :: (indentChars k ++ '\x7d' :: rest))))))) := by
          rw [renderMembers]
          simp
        have hsz' : jsize v ≤ f := by
          rw [jsizeFields, jsizeFields] at hsz
          omega
        have h1 : skipWs ('\n' :: (renderMembers [(key, v)] (k + 1) ++
            '\n' :: (indentChars k ++ '\x7d' :: rest))) =
            '"' :: (escapeChars key.data ++
              '"' :: (':' :: (' ' :: (renderJson v (k + 1) ++
                ('\n' :: (indentChars k ++ '\x7d' :: rest)))))) := by
          rw [hI, skipWs_append_ws _ _ (ws_nl_indent (k + 1)),
            skipWs_cons_not _ (by decide)]
        have h2 := parseStringBody_escape key.data
          (':' :: (' ' :: (renderJson v (k + 1) ++
            ('\n' :: (indentChars k ++ '\x7d' :: rest)))))
        have h3 : skipWs (':' :: (' ' :: (renderJson v (k + 1) ++
            ('\n' :: (indentChars k ++ '\x7d' :: rest))))) =
            ':' :: (' ' :: (renderJson v (k + 1) ++
              ('\n' :: (indentChars k ++ '\x7d' :: rest)))) :=
          skipWs_cons_not _ (by decide)
        have h4 : parseValue f (' ' :: (renderJson v (k + 1) ++
            ('\n' :: (indentChars k ++ '\x7d' :: rest)))) =
            some (v, '\n' :: (indentChars k ++ '\x7d' :: rest)) := by
          have hsp : (' ' :: (renderJson v (k + 1) ++
              ('\n' :: (indentChars k ++ '\x7d' :: rest)))) =
              [' '] ++ (renderJson v (k + 1) ++
                ('\n' :: (indentChars k ++ '\x7d' :: rest))) := rfl
          rw [hsp, parseValue_ws f _ _ (by intro d hd; simp at hd; rw [hd]; decide)]
          exact ihV v (k + 1) _ hsz' (goodTail_cons _ (by decide))
        have h5 : skipWs ('\n' :: (indentChars k ++ '\x7d' :: rest)) =
            '\x7d' :: rest := by
          have hsplit : '\n' :: (indentChars k ++ '\x7d' :: rest) =
              ('\n' :: indentChars k) ++ ('\x7d' :: rest) := by simp
          rw [hsplit, skipWs_append_ws _ _ (ws_nl_indent k),
            skipWs_cons_not _ (by decide)]
        exact parseFields_close f _ _ key.data _ _ v _ rest h1 h2 h3 h4 h5
      | cons m2 msB =>
        have hI : '\n' :: (renderMembers ((key, v) :: m2 :: msB) (k + 1) ++
            '\n' :: (indentChars k ++ '\x7d' :: rest)) =
            ('\n' :: indentChars (k + 1)) ++ ('"' :: (escapeChars key.data ++
              '"' :: (':' :: (' ' :: (renderJson v (k + 1) ++
                (',' :: ('\n' :: (renderMembers (m2 :: msB) (k + 1) ++
                  '\n' :: (indentChars k ++ '\x7d' :: rest))))))))) := by
          rw [renderMembers]
          simp
        have hsz' : jsize v ≤ f := by
          rw [jsizeFields] at hsz
          have := jsizeFields_pos (m2 :: msB)
          omega
        have h1 : skipWs ('\n' :: (renderMembers ((key, v) :: m2 :: msB) (k + 1) ++
            '\n' :: (indentChars k ++ '\x7d' :: rest))) =
            '"' :: (escapeChars key.data ++
              '"' :: (':' :: (' ' :: (renderJson v (k + 1) ++
                (',' :: ('\n' :: (renderMembers (m2 :: msB) (k + 1) ++
                  '\n' :: (indentChars k ++ '\x7d' :: rest)))))))) := by
          rw [hI, skipWs_append_ws _ _ (ws_nl_indent (k + 1)),
            skipWs_cons_not _ (by decide)]
        have h2 := parseStringBody_escape key.data
          (':' :: (' ' :: (renderJson v (k + 1) ++
            (',' :: ('\n' :: (renderMembers (m2 :: msB) (k + 1) ++
              '\n' :: (indentChars k ++ '\x7d' :: rest)))))))
        have h3 : skipWs (':' :: (' ' :: (renderJson v (k + 1) ++
            (',' :: ('\n' :: (renderMembers (m2 :: msB) (k + 1) ++
              '\n' :: (indentChars k ++ '\x7d' :: rest))))))) =
            ':' :: (' ' :: (renderJson v (k + 1) ++
              (',' :: ('\n' :: (renderMembers (m2 :: msB) (k + 1) ++
                '\n' :: (indentChars k ++ '\x7d' :: rest)))))) :=
          skipWs_cons_not _ (by decide)
        have h4 : parseValue f (' ' :: (renderJson v (k + 1) ++
            (',' :: ('\n' :: (renderMembers (m2 :: msB) (k + 1) ++
              '\n' :: (indentChars k ++ '\x7d' :: rest)))))) =
            some (v, ',' :: ('\n' :: (renderMembers (m2 :: msB) (k + 1) ++
              '\n' :: (indentChars k ++ '\x7d' :: rest)))) := by
          have hsp : (' ' :: (renderJson v (k + 1) ++
              (',' :: ('\n' :: (renderMembers (m2 :: msB) (k + 1) ++
                '\n' :: (indentChars k ++ '\x7d' :: rest)))))) =
              [' '] ++ (renderJson v (k + 1) ++
                (',' :: ('\n' :: (renderMembers (m2 :: msB) (k + 1) ++
                  '\n' :: (indentChars k ++ '\x7d' :: rest))))) := rfl
          rw [hsp, parseValue_ws f _ _ (by intro d hd; simp at hd; rw [hd]; decide)]
          exact ihV v (k + 1) _ hsz' (goodTail_cons _ (by decide))
        rw [parseFields_comma f _ _ key.data _ _ v _ _ h1 h2 h3 h4
          (skipWs_cons_not _ (by decide))]
        rw [ihF (m2 :: msB) k rest (by simp)
          (by rw [jsizeFields] at hsz; have := jsize_pos v; omega)]
        rfl

/-- The rendered text is at least as long as the value's size measure (up
to one), so the default fuel of `pyJsonLoads` is always sufficient. -/
theorem render_length_dominates : ∀ n : Nat,
    (∀ v k, jsize v ≤ n → jsize v ≤ (renderJson v k).length + 1) ∧
    (∀ vs k, vs ≠ [] → jsizeElems vs ≤ n →
      jsizeElems vs ≤ (renderItems vs (k + 1)).length + 1) ∧
    (∀ ms k, ms ≠ [] → jsizeFields ms ≤ n →
      jsizeFields ms ≤ (renderMembers ms (k + 1)).length + 1) := by
  intro n
  induction n with
  | zero =>
    refine ⟨?_, ?_, ?_⟩
    · intro v k hsz
      have := jsize_pos v
      omega
    · intro vs k _ hsz
      have := jsizeElems_pos vs
      omega
    · intro ms k _ hsz
      have := jsizeFields_pos ms
      omega
  | succ f ih =>
    obtain ⟨ihV, ihE, ihF⟩ := ih
    refine ⟨?_, ?_, ?_⟩
    · intro v k hsz
      cases v with
      | null => simp [jsize, renderJson]
      | bool b => cases b <;> simp [jsize, renderJson]
      | num m => simp [jsize]
      | str s => simp [jsize]
      | arr vs =>
        cases vs with
        | nil => simp [jsize, jsizeElems, renderJson]
        | cons v vs' =>
          rw [jsize] at hsz ⊢
          have hE := ihE (v :: vs') k (by simp) (by omega)
          rw [renderJson]
          simp only [List.length_cons, List.length_append, indentChars,
            List.length_replicate]
          omega
      | obj ms =>
        cases ms with
        | nil => simp [jsize, jsizeFields, renderJson]
        | cons m ms' =>
          rcases m with ⟨key, v⟩
          rw [jsize] at hsz ⊢
          have hF := ihF ((key, v) :: ms') k (by simp) (by omega)
          rw [renderJson]
          simp only [List.length_cons, List.length_append, indentChars,
            List.length_replicate]
          omega
    · intro vs k hne hsz
      rcases vs with _ | ⟨v, vs'⟩
      · exact absurd rfl hne
      cases vs' with
      | nil =>
        rw [jsizeElems, jsizeElems] at hsz ⊢
        have hV := ihV v (k + 1) (by omega)
        rw [renderItems]
        simp only [List.length_append, indentChars, List.length_replicate]
        omega
      | cons v2 vsB =>
        rw [jsizeElems] at hsz ⊢
        have h2 := jsizeElems_pos (v2 :: vsB)
        have hV := ihV v (k + 1) (by omega)
        have hE := ihE (v2 :: vsB) k (by simp) (by have := jsize_pos v; omega)
        rw [renderItems]
        simp only [List.length_append, List.length_cons, indentChars,
          List.length_replicate]
        omega
    · intro ms k hne hsz
      rcases ms with _ | ⟨⟨key, v⟩, ms'⟩
      · exact absurd rfl hne
      cases ms' with
      | nil =>
        rw [jsizeFields, jsizeFields] at hsz ⊢
        have hV := ihV v (k + 1) (by omega)
        rw [renderMembers]
        simp only [List.length_append, List.length_cons, indentChars,
          List.length_replicate]
        omega
      | cons m2 msB =>
        rw [jsizeFields] at hsz ⊢
        have h2 := jsizeFields_pos (m2 :: msB)
        have hV := ihV v (k + 1) (by have := jsizeFields_pos (m2 :: msB); omega)
        have hF := ihF (m2 :: msB) k (by simp) (by have := jsize_pos v; omega)
        rw [renderMembers]
        simp only [List.length_append, List.length_cons, indentChars,
          List.length_replicate]
        omega

/-- Parsing the persisted text of any JSON value yields the value back. -/
theorem pyJson_roundtrip (v : JValue) :
    pyJsonLoads (pyJsonDump v) = some v := by
  have hlen : (pyJsonDump v).length = (renderJson v 0).length := rfl
  have hsz : jsize v ≤ (renderJson v 0).length + 1 :=
    (render_length_dominates (jsize v)).1 v 0 (le_refl _)
  have hmain := (roundtrip_main ((renderJson v 0).length + 1)).1 v 0 [] hsz
    goodTail_nil
  rw [List.append_nil] at hmain
  rw [pyJsonLoads, hlen]
  show (match parseValue ((renderJson v 0).length + 1) (renderJson v 0) with
    | some (w, rest) => if (skipWs rest).isEmpty then some w else none
    | none => none) = some v
  rw [hmain]
  rfl

/-- Claim C8.  Serializing a KnowledgeGraph (a keyed record holding
`entities` and `relationships` sequences of well-formed records) with the
persisted pretty-printed format of `save_graph_json` and parsing that text
back yields a graph equal to the original — in fact `pyJson_roundtrip`
proves this for every JSON value, of which the well-formed graphs are a
special case. -/
theorem c8_save_load_roundtrip (g : JValue) (hg : GraphSpec g) :
    pyJsonLoads (pyJsonDump g) = some g :=
  pyJson_roundtrip g

/-- Witness for C8 at a concrete one-entity, one-relationship graph with a
non-ASCII name. -/
theorem c8_witness :
    GraphSpec (JValue.obj
      [("entities", .arr [.obj [("id", .str "c1"), ("type", .str "Company"),
        ("name", .str "Ríli ance"), ("value", .null), ("metadata", .obj [])]]),
       ("relationships", .arr [.obj [("source", .str "c1"),
        ("target", .str "c2"), ("type", .str "OWNS")]])]) ∧
    pyJsonLoads (pyJsonDump (JValue.obj
      [("entities", .arr [.obj [("id", .str "c1"), ("type", .str "Company"),
        ("name", .str "Ríli ance"), ("value", .null), ("metadata", .obj [])]]),
       ("relationships", .arr [.obj [("source", .str "c1"),
        ("target", .str "c2"), ("type", .str "OWNS")]])])) =
      some (JValue.obj
      [("entities", .arr [.obj [("id", .str "c1"), ("type", .str "Company"),
        ("name", .str "Ríli ance"), ("value", .null), ("metadata", .obj [])]]),
       ("relationships", .arr [.obj [("source", .str "c1"),
        ("target", .str "c2"), ("type", .str "OWNS")]])]) := by
  have hg : GraphSpec (JValue.obj
      [("entities", .arr [.obj [("id", .str "c1"), ("type", .str "Company"),
        ("name", .str "Ríli ance"), ("value", .null), ("metadata", .obj [])]]),
       ("relationships", .arr [.obj [("source", .str "c1"),
        ("target", .str "c2"), ("type", .str "OWNS")]])]) := by
    refine ⟨_, _, _, rfl, rfl, rfl, ?_, ?_⟩
    · intro e he
      rw [List.mem_singleton] at he
      subst he
      exact ⟨_, rfl, by decide, by decide, Or.inl rfl⟩
    · intro r hr
      rw [List.mem_singleton] at hr
      subst hr
      exact ⟨_, rfl, by decide, by decide, by decide⟩
  exact ⟨hg, c8_save_load_roundtrip _ hg⟩

end FinancialDetective
